import Mathlib

/-!
Verification of the qalam editor shell against its specification.

The development shallowly embeds the tab store
(`src/renderer/stores/useTabStore.ts`), the preload IPC bridge's LSP
surface (`preload/index.ts`), the main-process IPC handlers for the LSP
client (`main/index.ts`), and — since `lsp-client.ts` itself is not part
of the sources at hand — a model of the LSP client lifecycle and framing
codec built from the specification's contracts.
-/

namespace Qalam

/-! ## Tab store (`src/renderer/stores/useTabStore.ts`) -/

/-- Cursor position record of a tab. -/
structure CursorPosition where
  line : Nat
  col : Nat
deriving DecidableEq, Repr

/-- One editor tab, mirroring interface `Tab` of `useTabStore.ts`:
`filePath : string | null` becomes `Option String`. -/
structure Tab where
  id : String
  filePath : Option String
  fileName : String
  content : String
  savedContent : String
  isDirty : Bool
  cursorPosition : CursorPosition
deriving DecidableEq, Repr

/-- The zustand store's state: the tab list and the active tab id
(`string | null`). -/
structure TabState where
  tabs : List Tab
  activeTabId : Option String
deriving DecidableEq, Repr

/-- `getFileName` of `useTabStore.ts`: last `/`-separated component of the
path, or the default Arabic "new file" name when the path is null or the
last component is the empty string (JS falsiness of `''`). -/
def getFileName (filePath : Option String) : String :=
  match filePath with
  | none => "ملف جديد"
  | some p =>
    match (p.splitOn "/").getLast? with
    | none => "ملف جديد"
    | some last => if last = "" then "ملف جديد" else last

/-- `createTab`: appends a fresh tab (content equal to savedContent, not
dirty, cursor at 1:1) and activates it.  The generated id
(`tab-N-timestamp` in the source) is passed in as a parameter. -/
def createTab (s : TabState) (id : String) (filePath : Option String)
    (content : String) : TabState :=
  let newTab : Tab :=
    { id := id
      filePath := filePath
      fileName := getFileName filePath
      content := content
      savedContent := content
      isDirty := false
      cursorPosition := ⟨1, 1⟩ }
  { tabs := s.tabs ++ [newTab], activeTabId := some id }

/-- `closeTab`: returns `false` (and changes nothing) when the addressed
tab is dirty; returns `true` after removing the tab otherwise, fixing up
the active tab like the source does; an unknown id returns `true` with no
change. -/
def closeTab (s : TabState) (tabId : String) : Bool × TabState :=
  match s.tabs.find? (fun t => t.id == tabId) with
  | none => (true, s)
  | some tab =>
    if tab.isDirty then (false, s)
    else
      let tabIndex := s.tabs.findIdx (fun t => t.id == tabId)
      let newTabs := s.tabs.filter (fun t => t.id != tabId)
      let newActiveId :=
        if s.activeTabId = some tabId then
          if newTabs.length > 0 then
            let newIndex := min tabIndex (newTabs.length - 1)
            match newTabs[newIndex]? with
            | some t => if t.id = "" then none else some t.id
            | none => none
          else none
        else s.activeTabId
      (true, { tabs := newTabs, activeTabId := newActiveId })

/-- `closeOtherTabs`: keeps the addressed tab and every dirty tab, and
activates the addressed tab. -/
def closeOtherTabs (s : TabState) (tabId : String) : TabState :=
  { tabs := s.tabs.filter (fun t => t.id == tabId || t.isDirty)
    activeTabId := some tabId }

/-- `closeTabsToRight`: keeps the tabs up to and including the addressed
one plus the dirty tabs to its right; re-activates the addressed tab when
the active tab was closed.  No-op when the id is not present
(`tabIndex === -1`). -/
def closeTabsToRight (s : TabState) (tabId : String) : TabState :=
  match s.tabs.findIdx? (fun t => t.id == tabId) with
  | none => s
  | some tabIndex =>
    let tabsToKeep := s.tabs.take (tabIndex + 1)
    let tabsToRight := s.tabs.drop (tabIndex + 1)
    let unsavedToRight := tabsToRight.filter (fun t => t.isDirty)
    let newTabs := tabsToKeep ++ unsavedToRight
    let newActiveId :=
      match s.activeTabId with
      | none => none
      | some aid =>
        if aid ≠ "" ∧ newTabs.all (fun t => t.id != aid) then some tabId
        else some aid
    { tabs := newTabs, activeTabId := newActiveId }

/-- `closeAllTabs`: keeps exactly the dirty tabs (activating the first of
them, `unsavedTabs[0]?.id || null`), or clears everything when no tab is
dirty. -/
def closeAllTabs (s : TabState) : TabState :=
  let unsavedTabs := s.tabs.filter (fun t => t.isDirty)
  if unsavedTabs.length > 0 then
    { tabs := unsavedTabs
      activeTabId :=
        match unsavedTabs.head? with
        | some t => if t.id = "" then none else some t.id
        | none => none }
  else
    { tabs := [], activeTabId := none }

/-- `setActiveTab`. -/
def setActiveTab (s : TabState) (tabId : String) : TabState :=
  { s with activeTabId := some tabId }

/-- `updateTabContent`: rewrites the content of the addressed tab and
recomputes `isDirty` as `content !== tab.savedContent`. -/
def updateTabContent (s : TabState) (tabId : String) (content : String) :
    TabState :=
  { s with
    tabs := s.tabs.map (fun tab =>
      if tab.id == tabId then
        { tab with content := content, isDirty := content != tab.savedContent }
      else tab) }

/-- `updateTabCursor`. -/
def updateTabCursor (s : TabState) (tabId : String) (line col : Nat) :
    TabState :=
  { s with
    tabs := s.tabs.map (fun tab =>
      if tab.id == tabId then { tab with cursorPosition := ⟨line, col⟩ }
      else tab) }

/-- `markTabSaved`: copies content into savedContent, clears `isDirty`,
and optionally rebinds the file path (`filePath ?? tab.filePath`). -/
def markTabSaved (s : TabState) (tabId : String) (filePath : Option String) :
    TabState :=
  { s with
    tabs := s.tabs.map (fun tab =>
      if tab.id == tabId then
        let newPath := match filePath with
          | some p => some p
          | none => tab.filePath
        { tab with
          savedContent := tab.content
          isDirty := false
          filePath := newPath
          fileName := getFileName newPath }
      else tab) }

/-- `hasUnsavedTabs`. -/
def hasUnsavedTabs (s : TabState) : Bool :=
  s.tabs.any (fun t => t.isDirty)

/-- `nextTab`: cyclically advances the active tab.  `findIndex` yields
`-1` when the active id is absent, so the successor index is computed
over `Int` exactly as in JS. -/
def nextTab (s : TabState) : TabState :=
  if s.tabs.length ≤ 1 then s
  else
    let currentIndex : Int :=
      match s.tabs.findIdx? (fun t => some t.id == s.activeTabId) with
      | some i => (i : Int)
      | none => -1
    let nextIndex := ((currentIndex + 1) % (s.tabs.length : Int)).toNat
    match s.tabs[nextIndex]? with
    | some t => { s with activeTabId := some t.id }
    | none => s

/-- `prevTab`: cyclically steps the active tab backwards. -/
def prevTab (s : TabState) : TabState :=
  if s.tabs.length ≤ 1 then s
  else
    let currentIndex : Int :=
      match s.tabs.findIdx? (fun t => some t.id == s.activeTabId) with
      | some i => (i : Int)
      | none => -1
    let prevIndex : Int :=
      if currentIndex == 0 then (s.tabs.length : Int) - 1
      else currentIndex - 1
    if prevIndex < 0 then s
    else
      match s.tabs[prevIndex.toNat]? with
      | some t => { s with activeTabId := some t.id }
      | none => s

/-- A tab is consistent when `isDirty` says exactly whether the content
differs from the saved content. -/
def tabConsistent (t : Tab) : Prop :=
  t.isDirty = (t.content != t.savedContent)

/-- Store-wide dirty-flag consistency. -/
def stateConsistent (s : TabState) : Prop :=
  ∀ t ∈ s.tabs, tabConsistent t

/-- Sample clean tab used to instantiate universally quantified theorems. -/
def sampleCleanTab : Tab :=
  { id := "t1"
    filePath := none
    fileName := "ملف جديد"
    content := "abc"
    savedContent := "abc"
    isDirty := false
    cursorPosition := ⟨1, 1⟩ }

/-- Sample dirty tab used to instantiate universally quantified theorems. -/
def sampleDirtyTab : Tab :=
  { id := "t2"
    filePath := some "/proj/a.ترقيم"
    fileName := "a.ترقيم"
    content := "x"
    savedContent := ""
    isDirty := true
    cursorPosition := ⟨1, 1⟩ }

/-- Sample store state with one clean and one dirty tab. -/
def sampleState : TabState :=
  { tabs := [sampleCleanTab, sampleDirtyTab], activeTabId := some "t1" }

/-! ## Preload bridge LSP surface (`preload/index.ts`)

The renderer-facing `window.qalam.lsp` object.  Its event-subscription
operations wrap the callback in a fresh wrapper closure, register it with
`ipcRenderer.on(channel, handler)`, and return a disposer
`() => ipcRenderer.removeListener(channel, handler)`. -/

/-- The five server-pushed event kinds named by the specification. -/
inductive LSPEventKind where
  | diagnostics : LSPEventKind
  | log : LSPEventKind
  | showMessage : LSPEventKind
  | error : LSPEventKind
  | close : LSPEventKind
deriving DecidableEq, Repr

/-- Renderer channel carrying each event kind (`lsp:diagnostics`, …). -/
def lspChannel (k : LSPEventKind) : String :=
  match k with
  | .diagnostics => "lsp:diagnostics"
  | .log => "lsp:log"
  | .showMessage => "lsp:showMessage"
  | .error => "lsp:error"
  | .close => "lsp:close"

/-- The `ipcRenderer` listener table: ordered (channel, handler-identity)
pairs.  Handler identities stand for the wrapper closures, which are
distinct objects for every registration call. -/
structure IpcRegistry where
  listeners : List (String × Nat)
deriving DecidableEq, Repr

/-- `ipcRenderer.on`: appends the handler to the channel's listener
list. -/
def ipcOn (r : IpcRegistry) (channel : String) (h : Nat) : IpcRegistry :=
  { listeners := r.listeners ++ [(channel, h)] }

/-- `ipcRenderer.removeListener`: removes at most one instance of the
handler — the most recently added one (Node `EventEmitter` semantics). -/
def ipcRemoveListener (r : IpcRegistry) (channel : String) (h : Nat) :
    IpcRegistry :=
  { listeners := (r.listeners.reverse.erase (channel, h)).reverse }

/-- The subscription surface of `window.qalam.lsp` per event kind, read
off `preload/index.ts`: `onDiagnostics`, `onLog`, `onError` and `onClose`
exist and pair a registration step with a disposer; there is no
`showMessage` subscription operation in the bridge.  A subscription takes
the fresh wrapper identity and the current registry, and yields the new
registry together with the disposer. -/
def preloadSubscription (k : LSPEventKind) :
    Option (Nat → IpcRegistry → IpcRegistry × (IpcRegistry → IpcRegistry)) :=
  match k with
  | .showMessage => none
  | k =>
    some (fun h r =>
      (ipcOn r (lspChannel k) h, fun r' => ipcRemoveListener r' (lspChannel k) h))

/-! ## LSP client lifecycle

`lsp-client.ts` (the `LSPClient` class behind `getLSPClient` /
`destroyLSPClient`) is not among the sources at hand — only its callers
are — so the definitions in this section are modelled from the
specification (§4.5, §6, §7) and the main-process IPC handlers of
`main/index.ts` are embedded on top of them. -/

/-- The `ClientState` enum of §3. -/
inductive ClientState where
  | Stopped : ClientState
  | Starting : ClientState
  | Running : ClientState
  | Stopping : ClientState
  | Crashed : ClientState
deriving DecidableEq, Repr

/-- Start-time failures of §7's taxonomy that `start` can surface. -/
inductive StartError where
  | alreadyRunning : StartError
  | spawnError : StartError
  | handshakeError : StartError
deriving DecidableEq, Repr

/-- Modelled from the spec: the host-visible message of each start-time
failure; §8 fixes that a spawn failure (absent server binary) surfaces an
error containing "Failed to start". -/
def startErrorMessage (e : StartError) : String :=
  match e with
  | .alreadyRunning => "LSP client is already running"
  | .spawnError => "Failed to start LSP server: spawn ENOENT"
  | .handshakeError => "Failed to start LSP server: initialize handshake failed"

/-- Modelled from the spec: the `ClientLifecycleManager` singleton's
observable state.  `spawnCount` counts every server process ever spawned
(ghost variable for the single-instance guarantee), `procAlive` whether a
child process currently exists, `pending` the ids of pending requests
owned by the `RequestDispatcher`, `nextId` the next correlation id. -/
structure LSPClient where
  state : ClientState
  spawnCount : Nat
  procAlive : Bool
  capabilities : Option Nat
  pending : List Nat
  nextId : Nat
deriving DecidableEq, Repr

/-- The fresh, unstarted client instance `getLSPClient` constructs. -/
def initialClient : LSPClient :=
  { state := .Stopped
    spawnCount := 0
    procAlive := false
    capabilities := none
    pending := []
    nextId := 1 }

/-- Modelled from the spec (§4.5 `start`): fails immediately with
`AlreadyRunningError` unless the state is Stopped or Crashed; otherwise
spawns the process (`spawnOk` says whether the configured binary can be
launched), performs the initialize handshake (`handshakeOk`), and on
success stores the capabilities and enters Running; on any failure tears
the partially-started process down and ends Stopped without entering
Running.  Capabilities are opaque (§3) and represented by a `Nat`
token. -/
def startClient (spawnOk handshakeOk : Bool) (caps : Nat)
    (workspacePath : String) (c : LSPClient) :
    Except StartError Nat × LSPClient :=
  if c.state = .Stopped ∨ c.state = .Crashed then
    if spawnOk = false then
      (Except.error .spawnError, { c with state := .Stopped, procAlive := false })
    else if handshakeOk = false then
      (Except.error .handshakeError,
        { c with
          state := .Stopped
          spawnCount := c.spawnCount + 1
          procAlive := false })
    else
      (Except.ok caps,
        { c with
          state := .Running
          spawnCount := c.spawnCount + 1
          procAlive := true
          capabilities := some caps })
  else
    (Except.error .alreadyRunning, c)

/-- The observable steps of the shutdown sequence of §4.5 `stop`. -/
inductive StopAction where
  | shutdownRequest : StopAction
  | exitNotification : StopAction
  | waitGrace : StopAction
  | forceKill : StopAction
  | closeAllPending : StopAction
deriving DecidableEq, Repr

/-- Modelled from the spec (§4.5 `stop`): from Running or Starting, sends
the cooperative shutdown request then the exit notification, waits up to
the grace period, force-terminates when the process has not exited
(`forceNeeded`), then calls `RequestDispatcher.closeAll` and sets
Stopped; from any other state it is a no-op success. -/
def stopClient (forceNeeded : Bool) (c : LSPClient) :
    List StopAction × LSPClient :=
  if c.state = .Running ∨ c.state = .Starting then
    ([.shutdownRequest, .exitNotification, .waitGrace] ++
        (if forceNeeded then [.forceKill] else []) ++ [.closeAllPending],
      { c with
        state := .Stopped
        procAlive := false
        pending := []
        capabilities := none })
  else
    ([], c)

/-- Modelled from the spec (§4.5 `destroy`): unconditional teardown —
force-terminates any live process, rejects all pending requests, and
drops the singleton so the next `getLSPClient` yields a fresh instance;
the spawn-count ghost is carried over. -/
def destroyClient (c : LSPClient) : LSPClient :=
  { initialClient with spawnCount := c.spawnCount }

/-- `isRunning` (§4.5): true iff the state is exactly Running. -/
def isRunning (c : LSPClient) : Bool :=
  c.state == .Running

/-- Shape of the `lsp:start` IPC response
(`{success, capabilities?, error?}`). -/
structure LSPStartResponse where
  success : Bool
  capabilities : Option Nat
  error : Option String
deriving DecidableEq, Repr

/-- Shape of the `lsp:request` IPC response
(`{success, result?, error?}`). -/
structure LSPRequestResponse where
  success : Bool
  result : Option Nat
  error : Option String
deriving DecidableEq, Repr

/-- Shape of the `lsp:stop` / `lsp:notify` IPC responses
(`{success, error?}`). -/
structure LSPAckResponse where
  success : Bool
  error : Option String
deriving DecidableEq, Repr

/-- The `ipcMain.handle('lsp:start')` handler of `main/index.ts`: awaits
`lspClient.start(workspacePath)` and answers
`{success: true, capabilities}` on success, or
`{success: false, error: message}` when `start` threw. -/
def lspStartHandler (spawnOk handshakeOk : Bool) (caps : Nat)
    (workspacePath : String) (c : LSPClient) :
    LSPStartResponse × LSPClient :=
  match startClient spawnOk handshakeOk caps workspacePath c with
  | (Except.ok v, c') =>
    ({ success := true, capabilities := some v, error := none }, c')
  | (Except.error e, c') =>
    ({ success := false, capabilities := none,
       error := some (startErrorMessage e) }, c')

/-- The `ipcMain.handle('lsp:request')` handler of `main/index.ts`:
answers `{success: false, error: 'LSP server not running'}` without
touching the client when `isRunning()` is false, otherwise forwards the
request (the reply payload is abstracted as `serverResult`).  The third
component lists the wire messages actually sent to the server process. -/
def lspRequestHandler (c : LSPClient) (method : String) (params : Nat)
    (serverResult : Nat) :
    LSPRequestResponse × LSPClient × List (String × Nat) :=
  if isRunning c = false then
    ({ success := false, result := none,
       error := some "LSP server not running" }, c, [])
  else
    ({ success := true, result := some serverResult, error := none },
      { c with nextId := c.nextId + 1 }, [(method, params)])

/-- The `ipcMain.handle('lsp:notify')` handler of `main/index.ts`. -/
def lspNotifyHandler (c : LSPClient) (method : String) (params : Nat) :
    LSPAckResponse × LSPClient × List (String × Nat) :=
  if isRunning c = false then
    ({ success := false, error := some "LSP server not running" }, c, [])
  else
    ({ success := true, error := none }, c, [(method, params)])

/-- The `ipcMain.handle('lsp:stop')` handler of `main/index.ts`: calls
`destroyLSPClient()` and reports success. -/
def lspStopHandler (c : LSPClient) : LSPAckResponse × LSPClient :=
  ({ success := true, error := none }, destroyClient c)

/-! ## Framing codec

`FramingCodec` lives in `lsp-client.ts`, which is not among the sources
at hand, so this section is modelled from the specification: §6 fixes the
wire format (a header line declaring the body byte length, a blank-line
separator, then a UTF-8 JSON body) and §4.1/§8 fix the decoder contract
(reassembly across chunk boundaries, multiple frames per chunk, malformed
frames surfaced as protocol errors).  JSON payloads are embedded with
integer numerals; serialization mirrors `JSON.stringify` (no whitespace,
quote/backslash/control-character escaping). -/

mutual
/-- JSON values, the payload domain of the codec. -/
inductive Json where
  | null : Json
  | bool (b : Bool) : Json
  | num (n : Int) : Json
  | str (s : List Char) : Json
  | arr (elems : JsonList) : Json
  | obj (fields : JsonObj) : Json

/-- Lists of JSON values. -/
inductive JsonList where
  | nil : JsonList
  | cons (hd : Json) (tl : JsonList) : JsonList

/-- Ordered JSON object fields. -/
inductive JsonObj where
  | nil : JsonObj
  | cons (key : List Char) (val : Json) (tl : JsonObj) : JsonObj
end

/-- The opening curly brace character (code 123). -/
def lbrace : Char := Char.ofNat 123

/-- The closing curly brace character (code 125). -/
def rbrace : Char := Char.ofNat 125

/-- Lowercase hexadecimal digit character for a value below 16. -/
def hexDigit (n : Nat) : Char :=
  if n < 10 then Char.ofNat (48 + n) else Char.ofNat (87 + n)

/-- JSON string escaping of one character: quote and backslash get a
backslash escape, control characters a `\u00XX` escape, everything else
passes through. -/
def escapeChar (c : Char) : List Char :=
  if c = '"' then ['\\', '"']
  else if c = '\\' then ['\\', '\\']
  else if c.toNat < 32 then
    ['\\', 'u', '0', '0', hexDigit (c.toNat / 16), hexDigit (c.toNat % 16)]
  else [c]

/-- JSON string escaping of a character sequence. -/
def escapeString : List Char → List Char
  | [] => []
  | c :: cs => escapeChar c ++ escapeString cs

/-- Decimal digit characters of a natural number, most significant
first. -/
def natChars (n : Nat) : List Char :=
  if n = 0 then ['0']
  else (Nat.digits 10 n).reverse.map (fun d => Char.ofNat (48 + d))

/-- Decimal text of an integer. -/
def intChars (n : Int) : List Char :=
  if n < 0 then '-' :: natChars n.natAbs else natChars n.natAbs

/-- The keyword text of the JSON null literal. -/
def nullChars : List Char := ['n', 'u', 'l', 'l']

/-- The keyword text of the JSON true literal. -/
def trueChars : List Char := ['t', 'r', 'u', 'e']

/-- The keyword text of the JSON false literal. -/
def falseChars : List Char := ['f', 'a', 'l', 's', 'e']

mutual
/-- Serialization of a JSON value, mirroring `JSON.stringify`. -/
def serialize : Json → List Char
  | .num n => intChars n
  | .str s => '"' :: (escapeString s ++ ['"'])
  | .arr es => '[' :: (serializeItems es ++ [']'])
  | .obj fs => lbrace :: (serializeFields fs ++ [rbrace])
  | .bool true => trueChars
  | .bool false => falseChars
  | .null => nullChars

/-- Comma-separated serialization of array elements. -/
def serializeItems : JsonList → List Char
  | .nil => []
  | .cons v .nil => serialize v
  | .cons v (.cons w tl) =>
    serialize v ++ ',' :: serializeItems (.cons w tl)

/-- Comma-separated serialization of object fields. -/
def serializeFields : JsonObj → List Char
  | .nil => []
  | .cons k v .nil =>
    '"' :: (escapeString k ++ '"' :: ':' :: serialize v)
  | .cons k v (.cons k2 v2 tl) =>
    ('"' :: (escapeString k ++ '"' :: ':' :: serialize v)) ++
      ',' :: serializeFields (.cons k2 v2 tl)
end

/-- Decimal digit test on characters. -/
def isDigitCh (c : Char) : Bool :=
  48 ≤ c.toNat && c.toNat ≤ 57

/-- Value of a lowercase hexadecimal digit character. -/
def hexVal (c : Char) : Option Nat :=
  if 48 ≤ c.toNat ∧ c.toNat ≤ 57 then some (c.toNat - 48)
  else if 97 ≤ c.toNat ∧ c.toNat ≤ 102 then some (c.toNat - 87)
  else none

/-- Leading digit run of the input: digit values (most significant
first) and the remaining characters. -/
def takeDigits : List Char → List Nat × List Char
  | [] => ([], [])
  | c :: cs =>
    if isDigitCh c then
      let (ds, r) := takeDigits cs
      ((c.toNat - 48) :: ds, r)
    else ([], c :: cs)

/-- Value of a big-endian digit list. -/
def digitsVal (ds : List Nat) : Nat :=
  ds.foldl (fun a d => 10 * a + d) 0

/-- Parse a nonempty leading digit run into its value. -/
def parseNat (l : List Char) : Option (Nat × List Char) :=
  let (ds, r) := takeDigits l
  if ds.isEmpty then none else some (digitsVal ds, r)

/-- Decode one piece of a JSON string body: the closing quote (`none`),
or one character, undoing the escapes the serializer emits. -/
def strStep : List Char → Option (Option Char × List Char)
  | [] => none
  | c :: cs =>
    if c = '"' then some (none, cs)
    else if c = '\\' then
      match cs with
      | [] => none
      | e :: cs2 =>
        if e = '"' then some (some '"', cs2)
        else if e = '\\' then some (some '\\', cs2)
        else if e = 'u' then
          match cs2 with
          | h1 :: h2 :: h3 :: h4 :: cs3 =>
            match hexVal h1, hexVal h2, hexVal h3, hexVal h4 with
            | some v1, some v2, some v3, some v4 =>
              some (some (Char.ofNat (((v1 * 16 + v2) * 16 + v3) * 16 + v4)),
                cs3)
            | _, _, _, _ => none
          | _ => none
        else none
    else some (some c, cs)

/-- Fuel-indexed JSON string body parse (each piece consumes at least
one character, so the input length plus one is sufficient fuel). -/
def parseStringF : Nat → List Char → Option (List Char × List Char)
  | 0, _ => none
  | fuel + 1, l =>
    match strStep l with
    | some (none, rest) => some ([], rest)
    | some (some c, rest) =>
      match parseStringF fuel rest with
      | some (s, r) => some (c :: s, r)
      | none => none
    | none => none

/-- Parse the body of a JSON string after the opening quote; yields the
contents and the input after the closing quote. -/
def parseStringBody (l : List Char) : Option (List Char × List Char) :=
  parseStringF (l.length + 1) l

/-- Strip an expected literal character sequence off the input. -/
def stripChars : List Char → List Char → Option (List Char)
  | [], l => some l
  | _ :: _, [] => none
  | x :: xs, c :: cs => if c = x then stripChars xs cs else none

/-- One dispatch step of the recursive-descent JSON parse, with the
fuelled sub-parsers for array items and object fields passed in. -/
def parseJsonStep (pItems : List Char → Option (JsonList × List Char))
    (pFields : List Char → Option (JsonObj × List Char)) :
    List Char → Option (Json × List Char) := fun l =>
  match l with
  | [] => none
  | c :: r =>
    if c = 'n' then
      match stripChars ['u', 'l', 'l'] r with
      | some r2 => some (.null, r2)
      | none => none
    else if c = 't' then
      match stripChars ['r', 'u', 'e'] r with
      | some r2 => some (.bool true, r2)
      | none => none
    else if c = 'f' then
      match stripChars ['a', 'l', 's', 'e'] r with
      | some r2 => some (.bool false, r2)
      | none => none
    else if c = '-' then
      match parseNat r with
      | some (n, r2) => some (.num (-(n : Int)), r2)
      | none => none
    else if isDigitCh c then
      match parseNat (c :: r) with
      | some (n, r2) => some (.num ((n : Nat) : Int), r2)
      | none => none
    else if c = '"' then
      match parseStringBody r with
      | some (s, r2) => some (.str s, r2)
      | none => none
    else if c = '[' then
      match r with
      | [] => none
      | b :: r2 =>
        if b = ']' then some (.arr .nil, r2)
        else
          match pItems (b :: r2) with
          | some (es, r3) => some (.arr es, r3)
          | none => none
    else if c = lbrace then
      match r with
      | [] => none
      | b :: r2 =>
        if b = rbrace then some (.obj .nil, r2)
        else
          match pFields (b :: r2) with
          | some (fs, r3) => some (.obj fs, r3)
          | none => none
    else none

/-- One step of the nonempty array item list parse (value, then comma
and recursion or the closing bracket). -/
def parseItemsStep (pJson : List Char → Option (Json × List Char))
    (pItems : List Char → Option (JsonList × List Char)) :
    List Char → Option (JsonList × List Char) := fun l =>
  match pJson l with
  | none => none
  | some (v, r) =>
    match r with
    | [] => none
    | sep :: r2 =>
      if sep = ',' then
        match pItems r2 with
        | some (vs, r3) => some (.cons v vs, r3)
        | none => none
      else if sep = ']' then some (.cons v .nil, r2)
      else none

/-- One step of the nonempty object field list parse (quoted key, colon,
value, then comma and recursion or the closing brace). -/
def parseFieldsStep (pJson : List Char → Option (Json × List Char))
    (pFields : List Char → Option (JsonObj × List Char)) :
    List Char → Option (JsonObj × List Char) := fun l =>
  match l with
  | [] => none
  | q :: r =>
    if q = '"' then
      match parseStringBody r with
      | none => none
      | some (k, r2) =>
        match r2 with
        | [] => none
        | col :: r3 =>
          if col = ':' then
            match pJson r3 with
            | none => none
            | some (v, r4) =>
              match r4 with
              | [] => none
              | sep :: r5 =>
                if sep = ',' then
                  match pFields r5 with
                  | some (fs, r6) => some (.cons k v fs, r6)
                  | none => none
                else if sep = rbrace then some (.cons k v .nil, r5)
                else none
          else none
    else none

mutual
/-- Fuel-indexed recursive-descent parse of one JSON value at the front
of the input. -/
def parseJsonF : Nat → List Char → Option (Json × List Char)
  | 0, _ => none
  | fuel + 1, l => parseJsonStep (parseItemsF fuel) (parseFieldsF fuel) l

/-- Fuel-indexed parse of a nonempty array item list including the
closing bracket. -/
def parseItemsF : Nat → List Char → Option (JsonList × List Char)
  | 0, _ => none
  | fuel + 1, l => parseItemsStep (parseJsonF fuel) (parseItemsF fuel) l

/-- Fuel-indexed parse of a nonempty object field list including the
closing brace. -/
def parseFieldsF : Nat → List Char → Option (JsonObj × List Char)
  | 0, _ => none
  | fuel + 1, l => parseFieldsStep (parseJsonF fuel) (parseFieldsF fuel) l
end

/-- JSON parse of a text, with enough fuel for any value the text can
hold. -/
def parseJson (l : List Char) : Option (Json × List Char) :=
  parseJsonF (l.length + 1) l

mutual
/-- Fuel sufficient for `parseJsonF` on the serialization of a value. -/
def jfuel : Json → Nat
  | .arr es => 1 + lfuel es
  | .obj fs => 1 + ofuel fs
  | .str _ => 1
  | .num _ => 1
  | .bool _ => 1
  | .null => 1

/-- Fuel sufficient for `parseItemsF` on serialized array items. -/
def lfuel : JsonList → Nat
  | .nil => 1
  | .cons v tl => 1 + max (jfuel v) (lfuel tl)

/-- Fuel sufficient for `parseFieldsF` on serialized object fields. -/
def ofuel : JsonObj → Nat
  | .nil => 1
  | .cons _ v tl => 1 + max (jfuel v) (ofuel tl)
end

/-- UTF-8 encoding of one character (1–4 bytes). -/
def utf8EncodeChar (c : Char) : List Nat :=
  let v := c.toNat
  if v < 128 then [v]
  else if v < 2048 then [192 + v / 64, 128 + v % 64]
  else if v < 65536 then
    [224 + v / 4096, 128 + v / 64 % 64, 128 + v % 64]
  else
    [240 + v / 262144, 128 + v / 4096 % 64, 128 + v / 64 % 64,
      128 + v % 64]

/-- UTF-8 encoding of a character sequence. -/
def utf8Encode : List Char → List Nat
  | [] => []
  | c :: cs => utf8EncodeChar c ++ utf8Encode cs

/-- Decode one UTF-8-encoded character at the front of the byte
sequence; stray continuation bytes or truncated sequences fail. -/
def utf8Step : List Nat → Option (Char × List Nat)
  | [] => none
  | b :: bs =>
    if b < 128 then some (Char.ofNat b, bs)
    else if b < 192 then none
    else if b < 224 then
      match bs with
      | b1 :: bs2 => some (Char.ofNat ((b - 192) * 64 + b1 % 64), bs2)
      | [] => none
    else if b < 240 then
      match bs with
      | b1 :: b2 :: bs2 =>
        some (Char.ofNat ((b - 224) * 4096 + b1 % 64 * 64 + b2 % 64), bs2)
      | _ => none
    else
      match bs with
      | b1 :: b2 :: b3 :: bs2 =>
        some (Char.ofNat
          ((b - 240) * 262144 + b1 % 64 * 4096 + b2 % 64 * 64 + b3 % 64),
          bs2)
      | _ => none

/-- Fuel-indexed UTF-8 decoding loop (each step consumes at least one
byte, so the input length is sufficient fuel). -/
def utf8DecodeF : Nat → List Nat → Option (List Char)
  | _, [] => some []
  | 0, _ :: _ => none
  | fuel + 1, b :: bs =>
    match utf8Step (b :: bs) with
    | some (c, rest) =>
      match utf8DecodeF fuel rest with
      | some cs => some (c :: cs)
      | none => none
    | none => none

/-- UTF-8 decoding of a byte sequence. -/
def utf8Decode (bs : List Nat) : Option (List Char) :=
  utf8DecodeF bs.length bs

/-- The `Content-Length: ` header literal. -/
def headerChars : List Char :=
  ['C', 'o', 'n', 't', 'e', 'n', 't', '-', 'L', 'e', 'n', 'g', 't', 'h',
    ':', ' ']

/-- The header/body separator: CR LF CR LF (header line end plus blank
line). -/
def sepBytes : List Nat := [13, 10, 13, 10]

/-- Modelled from the spec (§4.1, §6 of the framing contract —
`FramingCodec.encode` is not among the sources at hand): the encoder
emits a header line announcing the exact byte length of the
UTF-8-encoded JSON body, the blank-line separator, then the body. -/
def encodeFrame (payload : Json) : List Nat :=
  let body := utf8Encode (serialize payload)
  utf8Encode headerChars ++ utf8Encode (natChars body.length) ++
    sepBytes ++ body

/-- Result of matching a byte literal at the front of the buffer. -/
inductive BytesMatch where
  | moreNeeded : BytesMatch
  | mismatch : BytesMatch
  | matched (rest : List Nat) : BytesMatch
deriving DecidableEq, Repr

/-- Match a literal at the front of the buffer: `matched` with the rest
when the literal is a prefix, `moreNeeded` when the buffer is a strict
prefix of the literal, `mismatch` otherwise. -/
def matchBytes : List Nat → List Nat → BytesMatch
  | [], buf => .matched buf
  | _ :: _, [] => .moreNeeded
  | l :: ls, b :: bs => if b = l then matchBytes ls bs else .mismatch

/-- Leading run of ASCII digit bytes: their values and the rest. -/
def takeDigitBytes : List Nat → List Nat × List Nat
  | [] => ([], [])
  | b :: bs =>
    if 48 ≤ b ∧ b ≤ 57 then
      let (ds, r) := takeDigitBytes bs
      ((b - 48) :: ds, r)
    else ([], b :: bs)

/-- Result of the incremental header parse. -/
inductive HeaderParse where
  | moreNeeded : HeaderParse
  | malformed : HeaderParse
  | done (bodyLen : Nat) (rest : List Nat) : HeaderParse
deriving DecidableEq, Repr

/-- Modelled from the spec (§4.1, §6): parse the `Content-Length` header
line and the blank-line separator at the front of the buffer;
`moreNeeded` while the buffer can still grow into a well-formed header,
`malformed` once it cannot. -/
def parseHeader (buf : List Nat) : HeaderParse :=
  match matchBytes (utf8Encode headerChars) buf with
  | .moreNeeded => .moreNeeded
  | .mismatch => .malformed
  | .matched r =>
    match takeDigitBytes r with
    | (ds, r2) =>
      match r2 with
      | [] => .moreNeeded
      | _ :: _ =>
        if ds.isEmpty then .malformed
        else
          match matchBytes sepBytes r2 with
          | .moreNeeded => .moreNeeded
          | .mismatch => .malformed
          | .matched r3 => .done (digitsVal ds) r3

/-- Events the decoder surfaces to its consumer. -/
inductive DecodeEvent where
  | msg (v : Json) : DecodeEvent
  | protocolError : DecodeEvent

/-- Decode one frame body: UTF-8 decode, then JSON parse demanding the
body is exactly one JSON value. -/
def decodeBody (bytes : List Nat) : DecodeEvent :=
  match utf8Decode bytes with
  | none => .protocolError
  | some cs =>
    match parseJson cs with
    | some (v, []) => .msg v
    | _ => .protocolError

/-- Fuel-indexed frame extraction over the buffered bytes (the buffer
length is always sufficient fuel, a frame consuming at least one byte):
emits the message of every complete frame, stops the connection on a
malformed header (the fatal-to-connection policy §4.1 allows), and keeps
the unconsumed tail buffered. -/
def extractF : Nat → List Nat → List DecodeEvent × List Nat
  | 0, buf => ([], buf)
  | fuel + 1, buf =>
    match parseHeader buf with
    | .moreNeeded => ([], buf)
    | .malformed => ([.protocolError], [])
    | .done n r =>
      if n ≤ r.length then
        match extractF fuel (r.drop n) with
        | (evs, rest) => (decodeBody (r.take n) :: evs, rest)
      else ([], buf)

/-- Frame extraction over the buffered bytes. -/
def extract (buf : List Nat) : List DecodeEvent × List Nat :=
  extractF buf.length buf

/-- The decoder's state between chunks: the buffered bytes of the not
yet complete trailing frame. -/
structure DecoderState where
  buf : List Nat

/-- Feed one chunk: append it to the buffer and extract every complete
frame. -/
def feed (s : DecoderState) (chunk : List Nat) :
    DecoderState × List DecodeEvent :=
  match extract (s.buf ++ chunk) with
  | (evs, rest) => (⟨rest⟩, evs)

/-- Feed a sequence of chunks, concatenating the emitted events. -/
def feedChunks (s : DecoderState) :
    List (List Nat) → DecoderState × List DecodeEvent
  | [] => (s, [])
  | c :: cs =>
    match feed s c with
    | (s1, evs1) =>
      match feedChunks s1 cs with
      | (s2, evs2) => (s2, evs1 ++ evs2)

/-- Big-endian decimal digits of a natural number (`[0]` for zero). -/
def bigDigits (n : Nat) : List Nat :=
  if n = 0 then [0] else (Nat.digits 10 n).reverse

/-- The input after a serialized JSON value never continues with a digit
(it is empty or starts with a separator/closing character), which keeps
number parsing unambiguous. -/
def headSafe : List Char → Prop
  | [] => True
  | c :: _ => isDigitCh c = false

/-- Byte-level analogue of `headSafe` for the header digit run. -/
def byteHeadSafe : List Nat → Prop
  | [] => True
  | b :: _ => ¬(48 ≤ b ∧ b ≤ 57)

/-- The sample payload `{"uri":"ع"}` used to instantiate the framing
round-trip: its body holds a two-byte UTF-8 character. -/
def samplePayload : Json :=
  Json.obj (JsonObj.cons ['u', 'r', 'i'] (Json.str ['ع']) JsonObj.nil)

/-- The concrete subscription operation the bridge returns for the
diagnostics kind. -/
def diagnosticsSubscription :
    Nat → IpcRegistry → IpcRegistry × (IpcRegistry → IpcRegistry) :=
  fun h r =>
    (ipcOn r (lspChannel .diagnostics) h,
      fun r' => ipcRemoveListener r' (lspChannel .diagnostics) h)

/-- A client in the Running state, for instantiating lifecycle
theorems. -/
def runningClient : LSPClient :=
  { state := .Running
    spawnCount := 1
    procAlive := true
    capabilities := some 5
    pending := [4, 7]
    nextId := 8 }

theorem closeTab_state_tabs_subset (s : TabState) (tabId : String) :
    (closeTab s tabId).2.tabs ⊆ s.tabs := by
  unfold closeTab
  cases hf : s.tabs.find? (fun t => t.id == tabId) with
  | none => simp
  | some tab =>
    by_cases hd : tab.isDirty = true
    · simp [hd]
    · simp only [Bool.not_eq_true] at hd
      simp only [hd, Bool.false_eq_true, if_false]
      intro t ht
      exact (List.mem_filter.1 ht).1

theorem closeOtherTabs_tabs_subset (s : TabState) (tabId : String) :
    (closeOtherTabs s tabId).tabs ⊆ s.tabs := by
  intro t ht
  exact (List.mem_filter.1 ht).1

theorem closeTabsToRight_tabs_subset (s : TabState) (tabId : String) :
    (closeTabsToRight s tabId).tabs ⊆ s.tabs := by
  unfold closeTabsToRight
  cases hf : s.tabs.findIdx? (fun t => t.id == tabId) with
  | none => simp
  | some i =>
    intro t ht
    simp only at ht
    rcases List.mem_append.1 ht with h1 | h1
    · exact List.take_subset _ _ h1
    · exact List.drop_subset _ _ (List.mem_filter.1 h1).1

theorem closeAllTabs_tabs_subset (s : TabState) :
    (closeAllTabs s).tabs ⊆ s.tabs := by
  unfold closeAllTabs
  by_cases hl : 0 < (s.tabs.filter (fun t => t.isDirty)).length
  · simp only [hl, if_pos]
    intro t ht
    exact (List.mem_filter.1 ht).1
  · simp [hl]

theorem nextTab_tabs_eq (s : TabState) : (nextTab s).tabs = s.tabs := by
  unfold nextTab
  repeat' first
    | rfl
    | split
    | (simp only []; split)

theorem prevTab_tabs_eq (s : TabState) : (prevTab s).tabs = s.tabs := by
  unfold prevTab
  repeat' first
    | rfl
    | split
    | (simp only []; split)

theorem updateTabContent_consistent (s : TabState) (hs : stateConsistent s)
    (tabId content : String) :
    stateConsistent (updateTabContent s tabId content) := by
  intro t ht
  simp only [updateTabContent, List.mem_map] at ht
  obtain ⟨u, hu, rfl⟩ := ht
  by_cases h : (u.id == tabId) = true
  · simp [h, tabConsistent]
  · simp only [h, Bool.false_eq_true, if_false]
    exact hs u hu

theorem updateTabCursor_consistent (s : TabState) (hs : stateConsistent s)
    (tabId : String) (line col : Nat) :
    stateConsistent (updateTabCursor s tabId line col) := by
  intro t ht
  simp only [updateTabCursor, List.mem_map] at ht
  obtain ⟨u, hu, rfl⟩ := ht
  by_cases h : (u.id == tabId) = true
  · have := hs u hu
    simp_all [tabConsistent]
  · simp only [h, Bool.false_eq_true, if_false]
    exact hs u hu

theorem markTabSaved_consistent (s : TabState) (hs : stateConsistent s)
    (tabId : String) (filePath : Option String) :
    stateConsistent (markTabSaved s tabId filePath) := by
  intro t ht
  simp only [markTabSaved, List.mem_map] at ht
  obtain ⟨u, hu, rfl⟩ := ht
  by_cases h : (u.id == tabId) = true
  · simp [h, tabConsistent]
  · simp only [h, Bool.false_eq_true, if_false]
    exact hs u hu

theorem createTab_consistent (s : TabState) (hs : stateConsistent s)
    (id : String) (filePath : Option String) (content : String) :
    stateConsistent (createTab s id filePath content) := by
  intro t ht
  simp only [createTab, List.mem_append, List.mem_singleton] at ht
  rcases ht with h | rfl
  · exact hs t h
  · simp [tabConsistent]

theorem closeTab_state_consistent (s : TabState) (hs : stateConsistent s)
    (tabId : String) : stateConsistent (closeTab s tabId).2 :=
  fun t ht => hs t (closeTab_state_tabs_subset s tabId ht)

/-- C8: the bulk closing operations `closeOtherTabs`, `closeTabsToRight`
and `closeAllTabs` never remove a tab whose `isDirty` flag is set: every
dirty tab of the pre-state is still in the tab list afterwards. -/
theorem bulk_close_preserves_dirty_tabs (s : TabState) (tabId : String) :
    (∀ t ∈ s.tabs, t.isDirty = true → t ∈ (closeOtherTabs s tabId).tabs) ∧
    (∀ t ∈ s.tabs, t.isDirty = true → t ∈ (closeTabsToRight s tabId).tabs) ∧
    (∀ t ∈ s.tabs, t.isDirty = true → t ∈ (closeAllTabs s).tabs) := by
  refine ⟨?_, ?_, ?_⟩
  · intro t ht hd
    exact List.mem_filter.2 ⟨ht, by simp [hd]⟩
  · intro t ht hd
    unfold closeTabsToRight
    cases hf : s.tabs.findIdx? (fun t => t.id == tabId) with
    | none => exact ht
    | some i =>
      simp only []
      refine List.mem_append.2 ?_
      rcases List.mem_append.1 ((s.tabs.take_append_drop (i + 1)).symm ▸ ht)
        with h1 | h1
      · exact Or.inl h1
      · exact Or.inr (List.mem_filter.2 ⟨h1, hd⟩)
  · intro t ht hd
    unfold closeAllTabs
    have hmem : t ∈ s.tabs.filter (fun t => t.isDirty) :=
      List.mem_filter.2 ⟨ht, hd⟩
    have hl : 0 < (s.tabs.filter (fun t => t.isDirty)).length :=
      List.length_pos.2 (List.ne_nil_of_mem hmem)
    simp only [hl, if_pos]
    exact hmem

/-- Closed instance of C8 at a concrete state: the dirty sample tab
survives `closeAllTabs`. -/
theorem bulk_close_preserves_dirty_tabs_witness :
    sampleDirtyTab ∈ (closeAllTabs sampleState).tabs :=
  (bulk_close_preserves_dirty_tabs sampleState "t1").2.2 sampleDirtyTab
    (by simp [sampleState]) (by rfl)

/-- C9: `closeTab` on a dirty tab returns `false` and leaves the state
(tab list and active id) unchanged; `closeTab` for an id not present in
the tab list returns `true` and also leaves the state unchanged. -/
theorem closeTab_dirty_or_missing (s : TabState) (tabId : String) :
    (∀ tab, s.tabs.find? (fun t => t.id == tabId) = some tab →
      tab.isDirty = true → closeTab s tabId = (false, s)) ∧
    ((∀ t ∈ s.tabs, t.id ≠ tabId) → closeTab s tabId = (true, s)) := by
  constructor
  · intro tab hf hd
    unfold closeTab
    rw [hf]
    simp [hd]
  · intro hnone
    have hf : s.tabs.find? (fun t => t.id == tabId) = none := by
      rw [List.find?_eq_none]
      intro t ht
      simpa using hnone t ht
    unfold closeTab
    rw [hf]

/-- Closed instance of C9: closing the dirty sample tab is refused with
`false` and the state survives; closing an absent id returns `true`. -/
theorem closeTab_dirty_or_missing_witness :
    closeTab sampleState "t2" = (false, sampleState) ∧
    closeTab sampleState "zzz" = (true, sampleState) :=
  ⟨(closeTab_dirty_or_missing sampleState "t2").1 sampleDirtyTab
      (by simp [sampleState, sampleCleanTab, sampleDirtyTab, List.find?]) rfl,
    (closeTab_dirty_or_missing sampleState "zzz").2
      (by simp [sampleState, sampleCleanTab, sampleDirtyTab])⟩

/-- C10: every tab-store operation preserves the invariant that `isDirty`
is set exactly when `content` differs from `savedContent`; moreover
`updateTabContent` that restores the saved content clears `isDirty`, and
`markTabSaved` sets `savedContent` equal to `content` with `isDirty`
false. -/
theorem tab_ops_preserve_dirty_consistency (s : TabState)
    (hs : stateConsistent s) (id tabId content : String)
    (filePath : Option String) (line col : Nat) :
    stateConsistent (createTab s id filePath content) ∧
    stateConsistent (closeTab s tabId).2 ∧
    stateConsistent (closeOtherTabs s tabId) ∧
    stateConsistent (closeTabsToRight s tabId) ∧
    stateConsistent (closeAllTabs s) ∧
    stateConsistent (setActiveTab s tabId) ∧
    stateConsistent (updateTabContent s tabId content) ∧
    stateConsistent (updateTabCursor s tabId line col) ∧
    stateConsistent (markTabSaved s tabId filePath) ∧
    stateConsistent (nextTab s) ∧
    stateConsistent (prevTab s) ∧
    (∀ t ∈ (updateTabContent s tabId content).tabs,
      t.content = t.savedContent → t.isDirty = false) ∧
    (∀ t ∈ (markTabSaved s tabId filePath).tabs, (t.id == tabId) = true →
      t.savedContent = t.content ∧ t.isDirty = false) := by
  refine ⟨createTab_consistent s hs id filePath content,
    closeTab_state_consistent s hs tabId,
    fun t ht => hs t (closeOtherTabs_tabs_subset s tabId ht),
    fun t ht => hs t (closeTabsToRight_tabs_subset s tabId ht),
    fun t ht => hs t (closeAllTabs_tabs_subset s ht),
    fun t ht => hs t ht,
    updateTabContent_consistent s hs tabId content,
    updateTabCursor_consistent s hs tabId line col,
    markTabSaved_consistent s hs tabId filePath,
    fun t ht => hs t (by rwa [nextTab_tabs_eq] at ht),
    fun t ht => hs t (by rwa [prevTab_tabs_eq] at ht),
    ?_, ?_⟩
  · intro t ht heq
    have := updateTabContent_consistent s hs tabId content t ht
    rw [tabConsistent, heq] at this
    simpa using this
  · intro t ht hid
    simp only [markTabSaved, List.mem_map] at ht
    obtain ⟨u, hu, rfl⟩ := ht
    by_cases h : (u.id == tabId) = true
    · simp [h]
    · simp only [h, Bool.false_eq_true, if_false] at hid ⊢

/-- C5 counterexample: the claim promises a subscription operation for
all five event kinds, but the bridge of `preload/index.ts` offers none
for `showMessage` — only diagnostics, log, error and close have one. -/
theorem preload_showMessage_no_subscription :
    preloadSubscription LSPEventKind.showMessage = none := rfl

/-- C5 (amended to the four kinds that exist): for every event kind other
than `showMessage` the bridge provides a subscription operation;
registering appends exactly the given handler to the channel's listeners,
and the returned disposer, applied to any later registry in which that
handler occurs exactly once, removes exactly that occurrence and no other
listener. -/
theorem preload_subscription_disposer_exact (k : LSPEventKind)
    (op : Nat → IpcRegistry → IpcRegistry × (IpcRegistry → IpcRegistry))
    (hop : preloadSubscription k = some op) (h : Nat) (r : IpcRegistry) :
    (∀ k', k' ≠ LSPEventKind.showMessage →
      (preloadSubscription k').isSome = true) ∧
    ((op h r).1.listeners = r.listeners ++ [(lspChannel k, h)]) ∧
    (∀ (r' : IpcRegistry) (l₁ l₂ : List (String × Nat)),
      r'.listeners = l₁ ++ (lspChannel k, h) :: l₂ →
      (lspChannel k, h) ∉ l₁ → (lspChannel k, h) ∉ l₂ →
      ((op h r).2 r').listeners = l₁ ++ l₂) := by
  have hall : ∀ k', k' ≠ LSPEventKind.showMessage →
      (preloadSubscription k').isSome = true := by
    intro k' hk'
    cases k' <;> first | rfl | exact absurd rfl hk'
  rcases k with _ | _ | _ | _ | _
  case showMessage => exact absurd hop (by simp [preloadSubscription])
  all_goals
    refine ⟨hall, ?_, ?_⟩
  all_goals
    try
      (injection hop with hop
       subst hop
       rfl)
  all_goals
    injection hop with hop
    subst hop
    intro r' l₁ l₂ hsplit h1 h2
    show (ipcRemoveListener r' _ _).listeners = l₁ ++ l₂
    rw [ipcRemoveListener]
    rw [hsplit, List.reverse_append, List.reverse_cons, List.append_assoc]
    rw [List.erase_append_right _ (by simpa using h2)]
    rw [List.singleton_append, List.erase_cons_head]
    rw [← List.reverse_append, List.reverse_reverse]

/-- Closed instance of the amended C5: disposing the diagnostics handler
`7` from a registry holding an unrelated log handler and handler `7`
removes exactly handler `7`. -/
theorem preload_subscription_disposer_exact_witness :
    ((diagnosticsSubscription 7 ⟨[]⟩).2
        ⟨[("lsp:log", 3), ("lsp:diagnostics", 7)]⟩).listeners =
      [("lsp:log", 3)] :=
  (preload_subscription_disposer_exact LSPEventKind.diagnostics
      diagnosticsSubscription rfl 7 ⟨[]⟩).2.2
    ⟨[("lsp:log", 3), ("lsp:diagnostics", 7)]⟩ [("lsp:log", 3)] [] rfl
    (by decide) (by decide)

/-- C1: calling `start` while the state is neither Stopped nor Crashed
fails with `AlreadyRunningError` and leaves the client (in particular the
spawn count) unchanged; after one successful `start` from Stopped, a
second `start` without an intervening stop/crash fails with
`AlreadyRunningError` and the total number of spawned processes stays at
one more than before. -/
theorem start_single_instance (c : LSPClient) (spawnOk handshakeOk : Bool)
    (caps caps' : Nat) (ws ws' : String) :
    (c.state ≠ ClientState.Stopped → c.state ≠ ClientState.Crashed →
      startClient spawnOk handshakeOk caps ws c =
        (Except.error StartError.alreadyRunning, c)) ∧
    (c.state = ClientState.Stopped →
      (startClient true true caps ws c).1 = Except.ok caps ∧
      (startClient true true caps ws c).2.spawnCount = c.spawnCount + 1 ∧
      startClient spawnOk handshakeOk caps' ws'
          (startClient true true caps ws c).2 =
        (Except.error StartError.alreadyRunning,
          (startClient true true caps ws c).2)) := by
  constructor
  · intro h1 h2
    unfold startClient
    simp [h1, h2]
  · intro h
    unfold startClient
    simp [h]

/-- Closed instance of C1: the second `start` on a freshly started client
is refused and only one process was ever spawned. -/
theorem start_single_instance_witness :
    (startClient true true 5 "/proj" initialClient).1 = Except.ok 5 ∧
    (startClient true true 5 "/proj" initialClient).2.spawnCount = 1 ∧
    startClient true true 6 "/other"
        (startClient true true 5 "/proj" initialClient).2 =
      (Except.error StartError.alreadyRunning,
        (startClient true true 5 "/proj" initialClient).2) :=
  (start_single_instance initialClient true true 5 6 "/proj" "/other").2 rfl

/-- C2: while the client is not Running — in particular after `stop()`
completes, which never leaves the state Running — both `lsp:request` and
`lsp:notify` fail fast with `{success:false}` and the message
"LSP server not running" (which contains "not running"), without
touching the client or sending anything to the server process. -/
theorem request_notify_fail_fast (c : LSPClient) (h : isRunning c = false)
    (method : String) (params serverResult : Nat) (force : Bool)
    (c₀ : LSPClient) :
    lspRequestHandler c method params serverResult =
      ({ success := false, result := none,
         error := some "LSP server not running" }, c, []) ∧
    lspNotifyHandler c method params =
      ({ success := false, error := some "LSP server not running" }, c, []) ∧
    isRunning (stopClient force c₀).2 = false ∧
    List.IsInfix "not running".toList "LSP server not running".toList
      := by
  refine ⟨?_, ?_, ?_, ?_⟩
  · unfold lspRequestHandler
    simp [h]
  · unfold lspNotifyHandler
    simp [h]
  · by_cases hc : c₀.state = ClientState.Running ∨ c₀.state = ClientState.Starting
    · simp [stopClient, hc, isRunning]
    · simp only [stopClient, hc, if_false]
      rw [isRunning, beq_eq_false_iff_ne]
      push_neg at hc
      exact hc.1
  · decide

/-- Closed instance of C2 on a destroyed (hence Stopped) client. -/
theorem request_notify_fail_fast_witness :
    lspRequestHandler initialClient "textDocument/hover" 3 7 =
      ({ success := false, result := none,
         error := some "LSP server not running" }, initialClient, []) ∧
    lspNotifyHandler initialClient "textDocument/didOpen" 3 =
      ({ success := false, error := some "LSP server not running" },
        initialClient, []) :=
  ⟨(request_notify_fail_fast initialClient rfl "textDocument/hover" 3 7
      false initialClient).1,
    (request_notify_fail_fast initialClient rfl "textDocument/didOpen" 3 3
      false initialClient).2.1⟩

/-- C3: `start` with an absent server binary answers `{success:false}`
with an error containing "Failed to start" and the state remains Stopped
with no live process; a handshake failure likewise tears the
partially-started process down and never enters Running. -/
theorem start_failure_stays_stopped (c : LSPClient)
    (h : c.state = ClientState.Stopped) (handshakeOk : Bool) (caps : Nat)
    (ws : String) :
    lspStartHandler false handshakeOk caps ws c =
      ({ success := false, capabilities := none,
         error := some "Failed to start LSP server: spawn ENOENT" },
        { c with state := ClientState.Stopped, procAlive := false }) ∧
    (lspStartHandler false handshakeOk caps ws c).2.state
      = ClientState.Stopped ∧
    (lspStartHandler true false caps ws c).2.state = ClientState.Stopped ∧
    (lspStartHandler true false caps ws c).2.procAlive = false ∧
    List.IsInfix "Failed to start".toList
      "Failed to start LSP server: spawn ENOENT".toList ∧
    List.IsInfix "Failed to start".toList
      "Failed to start LSP server: initialize handshake failed".toList
      := by
  refine ⟨?_, ?_, ?_, ?_, by decide, by decide⟩ <;>
    simp [lspStartHandler, startClient, startErrorMessage, h]

/-- Closed instance of C3 on the fresh client. -/
theorem start_failure_stays_stopped_witness :
    lspStartHandler false true 5 "/proj" initialClient =
      ({ success := false, capabilities := none,
         error := some "Failed to start LSP server: spawn ENOENT" },
        { initialClient with
          state := ClientState.Stopped, procAlive := false }) :=
  (start_failure_stays_stopped initialClient rfl true 5 "/proj").1

/-- C4: from Running or Starting, `stop()` emits the cooperative shutdown
request, then the exit notification, then waits the grace period,
force-kills exactly when needed, closes all pending requests last
(leaving the pending table empty) and sets Stopped; `stop()` when already
Stopped is a no-op that succeeds (the source-level `lsp:stop` handler
always answers `{success:true}`). -/
theorem stop_sequence_and_idempotence (c : LSPClient) (forceNeeded : Bool) :
    (c.state = ClientState.Running ∨ c.state = ClientState.Starting →
      stopClient forceNeeded c =
        ([StopAction.shutdownRequest, StopAction.exitNotification,
            StopAction.waitGrace] ++
            (if forceNeeded then [StopAction.forceKill] else []) ++
            [StopAction.closeAllPending],
          { c with
            state := ClientState.Stopped
            procAlive := false
            pending := []
            capabilities := none }) ∧
      (stopClient forceNeeded c).2.pending = []) ∧
    (c.state = ClientState.Stopped →
      stopClient forceNeeded c = ([], c) ∧
      (lspStopHandler c).1.success = true) := by
  constructor
  · intro hc
    unfold stopClient
    simp [hc]
  · intro hc
    have hne : ¬(c.state = ClientState.Running
        ∨ c.state = ClientState.Starting) := by
      rw [hc]
      simp
    unfold stopClient
    simp [hne, lspStopHandler]

/-- Closed instance of C4: a running client with two pending requests,
stopped with a forced kill. -/
theorem stop_sequence_and_idempotence_witness :
    stopClient true runningClient =
      ([StopAction.shutdownRequest, StopAction.exitNotification,
          StopAction.waitGrace, StopAction.forceKill,
          StopAction.closeAllPending],
        { runningClient with
          state := ClientState.Stopped
          procAlive := false
          pending := []
          capabilities := none }) ∧
    stopClient true initialClient = ([], initialClient) :=
  ⟨((stop_sequence_and_idempotence runningClient true).1 (Or.inl rfl)).1,
    ((stop_sequence_and_idempotence initialClient true).2 rfl).1⟩

/-- C6: a successful `start` (process spawns and the handshake completes)
answers `{success:true}` carrying the handshake's capabilities, and the
client state becomes Running. -/
theorem start_success_running (c : LSPClient)
    (h : c.state = ClientState.Stopped ∨ c.state = ClientState.Crashed)
    (caps : Nat) (ws : String) :
    lspStartHandler true true caps ws c =
      ({ success := true, capabilities := some caps, error := none },
        { c with
          state := ClientState.Running
          spawnCount := c.spawnCount + 1
          procAlive := true
          capabilities := some caps }) ∧
    isRunning (lspStartHandler true true caps ws c).2 = true := by
  constructor <;> simp [lspStartHandler, startClient, h, isRunning]

/-- Closed instance of C6 on the fresh client. -/
theorem start_success_running_witness :
    lspStartHandler true true 5 "/proj" initialClient =
      ({ success := true, capabilities := some 5, error := none },
        { initialClient with
          state := ClientState.Running
          spawnCount := initialClient.spawnCount + 1
          procAlive := true
          capabilities := some 5 }) ∧
    isRunning (lspStartHandler true true 5 "/proj" initialClient).2
      = true :=
  start_success_running initialClient (Or.inl rfl) 5 "/proj"

/-- Closed instance of C10 at the sample state. -/
theorem tab_ops_preserve_dirty_consistency_witness :
    stateConsistent (updateTabContent sampleState "t2" "") ∧
    stateConsistent (markTabSaved sampleState "t2" none) :=
  ⟨(tab_ops_preserve_dirty_consistency sampleState
      (by intro t ht; fin_cases ht <;> rfl) "t3" "t2" "" none 1 1).2.2.2.2.2.2.1,
    (tab_ops_preserve_dirty_consistency sampleState
      (by intro t ht; fin_cases ht <;> rfl) "t3" "t2" "" none 1 1).2.2.2.2.2.2.2.2.1⟩

/-! ### Codec lemmas: UTF-8 round trip -/

theorem toNat_ofNat_valid (n : Nat) (h : n.isValidChar) :
    (Char.ofNat n).toNat = n := by
  rw [Char.ofNat, dif_pos h]
  rfl

theorem char_toNat_valid (c : Char) : Nat.isValidChar c.toNat := c.valid

theorem ofNat_toNat_char (c : Char) : Char.ofNat c.toNat = c :=
  Char.ofNat_toNat c

theorem char_toNat_lt (c : Char) : c.toNat < 1114112 := by
  rcases char_toNat_valid c with h | h
  · omega
  · omega

theorem utf8EncodeChar_ne_nil (c : Char) : utf8EncodeChar c ≠ [] := by
  rw [utf8EncodeChar]
  split
  · simp
  · split
    · simp
    · split <;> simp

theorem utf8Step_encodeChar (c : Char) (rest : List Nat) :
    utf8Step (utf8EncodeChar c ++ rest) = some (c, rest) := by
  have hv := char_toNat_lt c
  by_cases h1 : c.toNat < 128
  · rw [utf8EncodeChar]
    simp only [h1, if_pos]
    rw [List.singleton_append, utf8Step.eq_def]
    simp only [h1, if_pos, ofNat_toNat_char]
  · by_cases h2 : c.toNat < 2048
    · rw [utf8EncodeChar]
      simp only [h1, h2, if_pos, if_false]
      rw [List.cons_append, List.singleton_append, utf8Step.eq_def]
      have e1 : ¬(192 + c.toNat / 64 < 128) := by omega
      have e2 : ¬(192 + c.toNat / 64 < 192) := by omega
      have e3 : 192 + c.toNat / 64 < 224 := by omega
      simp only [e1, e2, e3, if_pos, if_false]
      have e4 : (192 + c.toNat / 64 - 192) * 64 + (128 + c.toNat % 64) % 64
          = c.toNat := by omega
      rw [e4, ofNat_toNat_char]
    · by_cases h3 : c.toNat < 65536
      · rw [utf8EncodeChar]
        simp only [h1, h2, h3, if_pos, if_false]
        rw [List.cons_append, List.cons_append, List.singleton_append,
          utf8Step.eq_def]
        have e1 : ¬(224 + c.toNat / 4096 < 128) := by omega
        have e2 : ¬(224 + c.toNat / 4096 < 192) := by omega
        have e3 : ¬(224 + c.toNat / 4096 < 224) := by omega
        have e4 : 224 + c.toNat / 4096 < 240 := by omega
        simp only [e1, e2, e3, e4, if_pos, if_false]
        have e5 : (224 + c.toNat / 4096 - 224) * 4096 +
            (128 + c.toNat / 64 % 64) % 64 * 64 + (128 + c.toNat % 64) % 64
            = c.toNat := by omega
        rw [e5, ofNat_toNat_char]
      · rw [utf8EncodeChar]
        simp only [h1, h2, h3, if_false]
        rw [List.cons_append, List.cons_append, List.cons_append,
          List.singleton_append, utf8Step.eq_def]
        have e1 : ¬(240 + c.toNat / 262144 < 128) := by omega
        have e2 : ¬(240 + c.toNat / 262144 < 192) := by omega
        have e3 : ¬(240 + c.toNat / 262144 < 224) := by omega
        have e4 : ¬(240 + c.toNat / 262144 < 240) := by omega
        simp only [e1, e2, e3, e4, if_false]
        have e5 : (240 + c.toNat / 262144 - 240) * 262144 +
            (128 + c.toNat / 4096 % 64) % 64 * 4096 +
            (128 + c.toNat / 64 % 64) % 64 * 64 + (128 + c.toNat % 64) % 64
            = c.toNat := by omega
        rw [e5, ofNat_toNat_char]

theorem utf8DecodeF_encode (s : List Char) :
    ∀ fuel : Nat, (utf8Encode s).length ≤ fuel →
      utf8DecodeF fuel (utf8Encode s) = some s := by
  induction s with
  | nil =>
    intro fuel _
    rw [utf8Encode]
    cases fuel <;> rfl
  | cons c cs ih =>
    intro fuel hf
    rw [utf8Encode]
    obtain ⟨b, bs, hb⟩ :
        ∃ b bs, utf8EncodeChar c ++ utf8Encode cs = b :: bs := by
      cases he : utf8EncodeChar c with
      | nil => exact absurd he (utf8EncodeChar_ne_nil c)
      | cons x xs => exact ⟨x, xs ++ utf8Encode cs, by simp [he]⟩
    have hlen : 1 ≤ fuel := by
      rw [utf8Encode] at hf
      rw [hb] at hf
      simp at hf
      omega
    rcases fuel with _ | f
    · omega
    rw [hb, utf8DecodeF, ← hb, utf8Step_encodeChar]
    have hcs : (utf8Encode cs).length ≤ f := by
      rw [utf8Encode] at hf
      have : 1 ≤ (utf8EncodeChar c).length := by
        cases he : utf8EncodeChar c with
        | nil => exact absurd he (utf8EncodeChar_ne_nil c)
        | cons x xs => simp
      rw [List.length_append] at hf
      omega
    simp [ih f hcs]

theorem utf8Decode_encode (s : List Char) :
    utf8Decode (utf8Encode s) = some s :=
  utf8DecodeF_encode s (utf8Encode s).length le_rfl

/-! ### Codec lemmas: decimal digits -/

theorem digitChar_toNat (d : Nat) (h : d < 10) :
    (Char.ofNat (48 + d)).toNat = 48 + d :=
  toNat_ofNat_valid _ (Or.inl (by omega))

theorem bigDigits_lt (n : Nat) : ∀ d ∈ bigDigits n, d < 10 := by
  intro d hd
  rw [bigDigits] at hd
  split at hd
  · simp at hd
    omega
  · rw [List.mem_reverse] at hd
    exact Nat.digits_lt_base (by norm_num) hd

theorem bigDigits_ne_nil (n : Nat) : bigDigits n ≠ [] := by
  rw [bigDigits]
  split
  · simp
  · rename_i h
    rw [Ne, List.reverse_eq_nil_iff]
    exact Nat.digits_ne_nil_iff_ne_zero.mpr h

theorem natChars_eq_map (n : Nat) :
    natChars n = (bigDigits n).map (fun d => Char.ofNat (48 + d)) := by
  rw [natChars, bigDigits]
  split
  · decide
  · rfl

theorem natChars_digits (n : Nat) : ∀ c ∈ natChars n, isDigitCh c = true := by
  intro c hc
  rw [natChars_eq_map, List.mem_map] at hc
  obtain ⟨d, hd, rfl⟩ := hc
  have h10 := bigDigits_lt n d hd
  simp only [isDigitCh, digitChar_toNat d h10, Bool.and_eq_true,
    decide_eq_true_eq]
  omega

theorem natChars_ne_nil (n : Nat) : natChars n ≠ [] := by
  rw [natChars_eq_map]
  simp [bigDigits_ne_nil n]

theorem takeDigits_append (D : List Char)
    (hD : ∀ c ∈ D, isDigitCh c = true) (r : List Char) (hr : headSafe r) :
    takeDigits (D ++ r) = (D.map (fun c => c.toNat - 48), r) := by
  induction D with
  | nil =>
    simp only [List.nil_append, List.map_nil]
    cases r with
    | nil => rfl
    | cons c cs =>
      have hr' : isDigitCh c = false := hr
      rw [takeDigits]
      simp [hr']
  | cons d D' ih =>
    have hd := hD d (List.mem_cons_self d D')
    rw [List.cons_append, takeDigits]
    simp [hd, ih (fun c hc => hD c (List.mem_cons_of_mem _ hc))]

theorem foldl_digits (l : List Nat) (a : Nat) :
    l.reverse.foldl (fun x d => 10 * x + d) a =
      a * 10 ^ l.length + Nat.ofDigits 10 l := by
  induction l generalizing a with
  | nil => simp
  | cons d l ih =>
    rw [List.reverse_cons, List.foldl_append]
    simp only [List.foldl_cons, List.foldl_nil]
    rw [ih, Nat.ofDigits_cons, List.length_cons, pow_succ]
    ring

theorem digitsVal_bigDigits (n : Nat) : digitsVal (bigDigits n) = n := by
  rw [bigDigits]
  split
  · rename_i h
    rw [h]
    rfl
  · rw [digitsVal, foldl_digits, Nat.ofDigits_digits]
    simp

theorem digitsVal_natChars (n : Nat) :
    digitsVal ((natChars n).map (fun c => c.toNat - 48)) = n := by
  rw [natChars_eq_map, List.map_map]
  have hcong : ∀ d ∈ bigDigits n,
      ((fun c : Char => c.toNat - 48) ∘ fun d => Char.ofNat (48 + d)) d
        = id d := by
    intro d hd
    simp [digitChar_toNat d (bigDigits_lt n d hd)]
  rw [List.map_congr_left hcong, List.map_id, digitsVal_bigDigits]

theorem parseNat_natChars (n : Nat) (r : List Char) (hr : headSafe r) :
    parseNat (natChars n ++ r) = some (n, r) := by
  rw [parseNat, takeDigits_append (natChars n) (natChars_digits n) r hr]
  have hne : (natChars n).map (fun c => c.toNat - 48) ≠ [] := by
    simp [natChars_ne_nil n]
  simp [hne, digitsVal_natChars]

/-! ### Codec lemmas: JSON string bodies -/

theorem hexVal_hexDigit (v : Nat) (h : v < 16) :
    hexVal (hexDigit v) = some v := by
  interval_cases v <;> decide

theorem escapeChar_length_pos (c : Char) : 1 ≤ (escapeChar c).length := by
  rw [escapeChar]
  split
  · simp
  · split
    · simp
    · split <;> simp

theorem escapeString_length (s : List Char) :
    s.length ≤ (escapeString s).length := by
  induction s with
  | nil => simp [escapeString]
  | cons c cs ih =>
    rw [escapeString, List.length_append]
    have := escapeChar_length_pos c
    simp only [List.length_cons]
    omega

theorem strStep_escapeChar (c : Char) (rest : List Char) :
    strStep (escapeChar c ++ rest) = some (some c, rest) := by
  by_cases h1 : c = '"'
  · subst h1
    simp [escapeChar, strStep]
  · by_cases h2 : c = '\\'
    · subst h2
      simp [escapeChar, strStep]
    · by_cases h3 : c.toNat < 32
      · simp only [escapeChar, h1, h2, h3, if_pos, if_false]
        rw [List.cons_append, List.cons_append, List.cons_append,
          List.cons_append, List.cons_append, List.singleton_append]
        have h0 : hexVal '0' = some 0 := by decide
        simp [strStep, h0,
          hexVal_hexDigit _ (show c.toNat / 16 < 16 by omega),
          hexVal_hexDigit _ (show c.toNat % 16 < 16 by omega)]
        rw [show c.toNat / 16 * 16 + c.toNat % 16 = c.toNat from by omega,
          ofNat_toNat_char]
      · simp only [escapeChar, h1, h2, h3, if_neg, if_false]
        rw [List.singleton_append]
        simp [strStep, h1, h2]

theorem parseStringF_escape (s : List Char) :
    ∀ (fuel : Nat) (rest : List Char), s.length + 1 ≤ fuel →
      parseStringF fuel (escapeString s ++ '"' :: rest) = some (s, rest) := by
  induction s with
  | nil =>
    intro fuel rest hf
    rcases fuel with _ | f
    · omega
    · rw [escapeString, List.nil_append, parseStringF]
      simp [strStep]
  | cons c cs ih =>
    intro fuel rest hf
    rcases fuel with _ | f
    · omega
    · rw [escapeString, List.append_assoc, parseStringF,
        strStep_escapeChar]
      have hcs : cs.length + 1 ≤ f := by
        simp only [List.length_cons] at hf
        omega
      simp [ih f rest hcs]

theorem parseStringBody_escape (s : List Char) (rest : List Char) :
    parseStringBody (escapeString s ++ '"' :: rest) = some (s, rest) := by
  rw [parseStringBody]
  apply parseStringF_escape
  have := escapeString_length s
  rw [List.length_append]
  simp only [List.length_cons]
  omega

/-! ### Codec lemmas: serializer shape and fuel bounds -/

theorem serialize_ne_nil (v : Json) : serialize v ≠ [] := by
  cases v with
  | null => simp [serialize, nullChars]
  | bool b => cases b <;> simp [serialize, trueChars, falseChars]
  | num n =>
    rw [serialize, intChars]
    split
    · simp
    · exact natChars_ne_nil _
  | str s => simp [serialize]
  | arr es => simp [serialize]
  | obj fs => simp [serialize]

theorem natChars_head_digit (n : Nat) (b : Char) (t : List Char)
    (h : natChars n = b :: t) : isDigitCh b = true :=
  natChars_digits n b (h ▸ List.mem_cons_self b t)

theorem digit_not_special (c : Char) (h : isDigitCh c = true) :
    ¬c = 'n' ∧ ¬c = 't' ∧ ¬c = 'f' ∧ ¬c = '-' ∧ ¬c = ']' := by
  refine ⟨?_, ?_, ?_, ?_, ?_⟩ <;> rintro rfl <;> exact absurd h (by decide)

theorem serialize_head_ne_rsqb (v : Json) (b : Char) (t : List Char)
    (h : serialize v = b :: t) : ¬b = ']' := by
  cases v with
  | null =>
    rw [serialize] at h
    injection h with hb _
    subst hb
    decide
  | bool b0 =>
    cases b0 <;>
      (rw [serialize] at h
       injection h with hb _
       subst hb
       decide)
  | num n =>
    rw [serialize, intChars] at h
    split at h
    · injection h with hb _
      subst hb
      decide
    · exact (digit_not_special b (natChars_head_digit _ _ _ h)).2.2.2.2
  | str s =>
    rw [serialize] at h
    injection h with hb _
    subst hb
    decide
  | arr es =>
    rw [serialize] at h
    injection h with hb _
    subst hb
    decide
  | obj fs =>
    rw [serialize] at h
    injection h with hb _
    subst hb
    decide

theorem jfuel_pos (v : Json) : 1 ≤ jfuel v := by
  cases v <;> simp [jfuel]

theorem lfuel_pos (es : JsonList) : 1 ≤ lfuel es := by
  cases es <;> simp [lfuel]

theorem ofuel_pos (fs : JsonObj) : 1 ≤ ofuel fs := by
  cases fs <;> simp [ofuel]

theorem fuel_le_all (N : Nat) :
    (∀ v, jfuel v ≤ N → jfuel v ≤ (serialize v).length) ∧
    (∀ es, lfuel es ≤ N → lfuel es ≤ (serializeItems es).length + 1) ∧
    (∀ fs, ofuel fs ≤ N → ofuel fs ≤ (serializeFields fs).length + 1) := by
  induction N with
  | zero =>
    refine ⟨?_, ?_, ?_⟩
    · intro v hv
      have := jfuel_pos v
      omega
    · intro es hes
      have := lfuel_pos es
      omega
    · intro fs hfs
      have := ofuel_pos fs
      omega
  | succ N ih =>
    obtain ⟨ih1, ih2, ih3⟩ := ih
    refine ⟨?_, ?_, ?_⟩
    · intro v hv
      have hpos : 1 ≤ (serialize v).length :=
        List.length_pos.2 (serialize_ne_nil v)
      cases v with
      | null => simp [jfuel, serialize, nullChars]
      | bool b => cases b <;> simp [jfuel, serialize, trueChars, falseChars]
      | num n =>
        rw [jfuel]
        exact hpos
      | str s =>
        rw [jfuel]
        exact hpos
      | arr es =>
        rw [jfuel] at hv ⊢
        have hes : lfuel es ≤ N := by omega
        have h2 := ih2 es hes
        rw [serialize]
        simp only [List.length_cons, List.length_append]
        simp at h2 ⊢
        omega
      | obj fs =>
        rw [jfuel] at hv ⊢
        have hfs : ofuel fs ≤ N := by omega
        have h3 := ih3 fs hfs
        rw [serialize]
        simp only [List.length_cons, List.length_append]
        simp at h3 ⊢
        omega
    · intro es hes
      cases es with
      | nil =>
        rw [lfuel, serializeItems]
        simp
      | cons v tl =>
        rw [lfuel] at hes ⊢
        have hv : jfuel v ≤ N := by omega
        have htl : lfuel tl ≤ N := by omega
        have h1 := ih1 v hv
        have hpos : 1 ≤ (serialize v).length :=
          List.length_pos.2 (serialize_ne_nil v)
        cases tl with
        | nil =>
          rw [serializeItems]
          simp only [lfuel]
          omega
        | cons w tl2 =>
          rw [serializeItems]
          have h2 := ih2 _ htl
          simp only [List.length_append, List.length_cons]
          omega
    · intro fs hfs
      cases fs with
      | nil =>
        rw [ofuel, serializeFields]
        simp
      | cons k v tl =>
        rw [ofuel] at hfs ⊢
        have hv : jfuel v ≤ N := by omega
        have htl : ofuel tl ≤ N := by omega
        have h1 := ih1 v hv
        have hpos : 1 ≤ (serialize v).length :=
          List.length_pos.2 (serialize_ne_nil v)
        cases tl with
        | nil =>
          rw [serializeFields]
          simp only [ofuel, List.length_cons, List.length_append]
          omega
        | cons k2 v2 tl2 =>
          rw [serializeFields]
          have h3 := ih3 _ htl
          simp only [List.length_append, List.length_cons]
          omega

theorem jfuel_le_length (v : Json) : jfuel v ≤ (serialize v).length :=
  (fuel_le_all (jfuel v)).1 v le_rfl

/-! ### Codec lemmas: parse of the serialization -/

theorem headSafe_cons (c : Char) (r : List Char)
    (h : isDigitCh c = false) : headSafe (c :: r) := h

theorem headSafe_nil : headSafe [] := trivial

theorem serializeItems_cons_eq (v : Json) (tl : JsonList) :
    ∃ t, serializeItems (.cons v tl) = serialize v ++ t := by
  cases tl with
  | nil => exact ⟨[], by rw [serializeItems, List.append_nil]⟩
  | cons w tl2 =>
    exact ⟨',' :: serializeItems (.cons w tl2), by rw [serializeItems]⟩

theorem stripChars_append (lit r : List Char) :
    stripChars lit (lit ++ r) = some r := by
  induction lit with
  | nil => rfl
  | cons x xs ih =>
    rw [List.cons_append, stripChars, if_pos rfl, ih]

theorem ps_null (f : Nat) (rest : List Char) :
    parseJsonF (f + 1) (serialize Json.null ++ rest)
      = some (Json.null, rest) := by
  rw [serialize, nullChars]
  simp only [List.cons_append, List.nil_append]
  rw [parseJsonF]
  simp only [parseJsonStep, if_true]
  rw [show ('u' :: 'l' :: 'l' :: rest) = ['u', 'l', 'l'] ++ rest from rfl,
    stripChars_append]

theorem ps_bool (f : Nat) (b : Bool) (rest : List Char) :
    parseJsonF (f + 1) (serialize (Json.bool b) ++ rest)
      = some (Json.bool b, rest) := by
  cases b with
  | true =>
    rw [serialize, trueChars]
    simp only [List.cons_append, List.nil_append]
    rw [parseJsonF]
    simp only [parseJsonStep]
    rw [if_neg (by decide : ¬('t' : Char) = 'n')]
    simp only [if_true]
    rw [show ('r' :: 'u' :: 'e' :: rest) = ['r', 'u', 'e'] ++ rest from rfl,
      stripChars_append]
  | false =>
    rw [serialize, falseChars]
    simp only [List.cons_append, List.nil_append]
    rw [parseJsonF]
    simp only [parseJsonStep]
    rw [if_neg (by decide : ¬('f' : Char) = 'n'),
      if_neg (by decide : ¬('f' : Char) = 't')]
    simp only [if_true]
    rw [show ('a' :: 'l' :: 's' :: 'e' :: rest)
        = ['a', 'l', 's', 'e'] ++ rest from rfl,
      stripChars_append]
theorem ps_num (f : Nat) (n : Int) (rest : List Char) (hsafe : headSafe rest) :
    parseJsonF (f + 1) (serialize (Json.num n) ++ rest)
      = some (Json.num n, rest) := by
  by_cases hn : n < 0
  · rw [serialize, intChars, if_pos hn, List.cons_append, parseJsonF]
    simp only [parseJsonStep]
    rw [if_neg (by decide : ¬('-' : Char) = 'n'),
      if_neg (by decide : ¬('-' : Char) = 't'),
      if_neg (by decide : ¬('-' : Char) = 'f')]
    simp only [if_true]
    rw [parseNat_natChars _ _ hsafe]
    simp only []
    rw [show -((n.natAbs : Nat) : Int) = n from by omega]
  · rw [serialize, intChars, if_neg hn]
    cases hnc : natChars n.natAbs with
    | nil => exact absurd hnc (natChars_ne_nil _)
    | cons b t =>
      rw [List.cons_append, parseJsonF]
      simp only [parseJsonStep]
      have hd := natChars_head_digit _ _ _ hnc
      obtain ⟨e1, e2, e3, e4, _⟩ := digit_not_special b hd
      rw [if_neg e1, if_neg e2, if_neg e3, if_neg e4]
      simp only [hd, if_true]
      rw [← List.cons_append, ← hnc, parseNat_natChars _ _ hsafe]
      simp only []
      rw [show ((n.natAbs : Nat) : Int) = n from by omega]
theorem ps_str (f : Nat) (s0 : List Char) (rest : List Char) :
    parseJsonF (f + 1) (serialize (Json.str s0) ++ rest)
      = some (Json.str s0, rest) := by
  rw [serialize, List.cons_append, parseJsonF]
  simp only [parseJsonStep]
  rw [if_neg (by decide : ¬('"' : Char) = 'n'),
    if_neg (by decide : ¬('"' : Char) = 't'),
    if_neg (by decide : ¬('"' : Char) = 'f'),
    if_neg (by decide : ¬('"' : Char) = '-')]
  simp only [show isDigitCh '"' = false from by decide, Bool.false_eq_true,
    if_false, if_true]
  rw [List.append_assoc, List.singleton_append, parseStringBody_escape]

theorem ps_arr_nil (f : Nat) (rest : List Char) :
    parseJsonF (f + 1) (serialize (Json.arr JsonList.nil) ++ rest)
      = some (Json.arr JsonList.nil, rest) := by
  rw [serialize, serializeItems, List.nil_append, List.cons_append,
    List.singleton_append, parseJsonF]
  simp only [parseJsonStep]
  rw [if_neg (by decide : ¬('[' : Char) = 'n'),
    if_neg (by decide : ¬('[' : Char) = 't'),
    if_neg (by decide : ¬('[' : Char) = 'f'),
    if_neg (by decide : ¬('[' : Char) = '-')]
  simp only [show isDigitCh '[' = false from by decide, Bool.false_eq_true,
    if_false]
  rw [if_neg (by decide : ¬('[' : Char) = '"')]
  simp only [if_true]

theorem ps_arr_cons (f : Nat) (v : Json) (tl : JsonList) (rest : List Char)
    (hI : parseItemsF f (serializeItems (JsonList.cons v tl) ++ ']' :: rest)
      = some (JsonList.cons v tl, rest)) :
    parseJsonF (f + 1) (serialize (Json.arr (JsonList.cons v tl)) ++ rest)
      = some (Json.arr (JsonList.cons v tl), rest) := by
  obtain ⟨tx, hitems⟩ := serializeItems_cons_eq v tl
  obtain ⟨b, tv, hsv⟩ := List.exists_cons_of_ne_nil (serialize_ne_nil v)
  have hbne : ¬b = ']' := serialize_head_ne_rsqb v b tv hsv
  have hshape : serializeItems (JsonList.cons v tl) ++ ']' :: rest
      = b :: (tv ++ (tx ++ ']' :: rest)) := by
    rw [hitems, hsv]
    simp [List.append_assoc]
  rw [serialize, List.cons_append, List.append_assoc,
    List.singleton_append, hshape, parseJsonF]
  simp only [parseJsonStep]
  rw [if_neg (by decide : ¬('[' : Char) = 'n'),
    if_neg (by decide : ¬('[' : Char) = 't'),
    if_neg (by decide : ¬('[' : Char) = 'f'),
    if_neg (by decide : ¬('[' : Char) = '-')]
  simp only [show isDigitCh '[' = false from by decide, Bool.false_eq_true,
    if_false]
  rw [if_neg (by decide : ¬('[' : Char) = '"')]
  simp only [if_true]
  rw [if_neg hbne, ← hshape, hI]

theorem ps_obj_nil (f : Nat) (rest : List Char) :
    parseJsonF (f + 1) (serialize (Json.obj JsonObj.nil) ++ rest)
      = some (Json.obj JsonObj.nil, rest) := by
  rw [serialize, serializeFields, List.nil_append, List.cons_append,
    List.singleton_append, parseJsonF]
  simp only [parseJsonStep]
  rw [if_neg (by decide : ¬lbrace = 'n'),
    if_neg (by decide : ¬lbrace = 't'),
    if_neg (by decide : ¬lbrace = 'f'),
    if_neg (by decide : ¬lbrace = '-')]
  simp only [show isDigitCh lbrace = false from by decide,
    Bool.false_eq_true, if_false]
  rw [if_neg (by decide : ¬lbrace = '"'),
    if_neg (by decide : ¬lbrace = '[')]
  simp only [if_true]

theorem ps_obj_cons (f : Nat) (k : List Char) (v : Json) (tl : JsonObj)
    (rest : List Char)
    (hF : parseFieldsF f
        (serializeFields (JsonObj.cons k v tl) ++ rbrace :: rest)
      = some (JsonObj.cons k v tl, rest)) :
    parseJsonF (f + 1) (serialize (Json.obj (JsonObj.cons k v tl)) ++ rest)
      = some (Json.obj (JsonObj.cons k v tl), rest) := by
  have hshape : ∃ y, serializeFields (JsonObj.cons k v tl) = '"' :: y := by
    cases tl with
    | nil => exact ⟨_, by rw [serializeFields]⟩
    | cons k2 v2 tl2 =>
      refine ⟨(escapeString k ++ '"' :: ':' :: serialize v) ++
        ',' :: serializeFields (JsonObj.cons k2 v2 tl2), ?_⟩
      rw [serializeFields, List.cons_append]
  obtain ⟨y, hy⟩ := hshape
  have hshape2 : serializeFields (JsonObj.cons k v tl) ++ rbrace :: rest
      = '"' :: (y ++ rbrace :: rest) := by
    rw [hy, List.cons_append]
  rw [serialize, List.cons_append, List.append_assoc,
    List.singleton_append, hshape2, parseJsonF]
  simp only [parseJsonStep]
  rw [if_neg (by decide : ¬lbrace = 'n'),
    if_neg (by decide : ¬lbrace = 't'),
    if_neg (by decide : ¬lbrace = 'f'),
    if_neg (by decide : ¬lbrace = '-')]
  simp only [show isDigitCh lbrace = false from by decide,
    Bool.false_eq_true, if_false]
  rw [if_neg (by decide : ¬lbrace = '"'),
    if_neg (by decide : ¬lbrace = '[')]
  simp only [if_true]
  rw [if_neg (by decide : ¬('"' : Char) = rbrace), ← hshape2, hF]
theorem ps_items_single (f : Nat) (v : Json) (rest : List Char)
    (hJ : parseJsonF f (serialize v ++ ']' :: rest) = some (v, ']' :: rest)) :
    parseItemsF (f + 1) (serializeItems (JsonList.cons v JsonList.nil)
        ++ ']' :: rest)
      = some (JsonList.cons v JsonList.nil, rest) := by
  rw [serializeItems, parseItemsF]
  simp only [parseItemsStep]
  rw [hJ]
  simp only []
  rw [if_neg (by decide : ¬(']' : Char) = ',')]
  simp only [if_true]

theorem ps_items_more (f : Nat) (v w : Json) (tl2 : JsonList)
    (rest : List Char)
    (hJ : parseJsonF f (serialize v ++
        ',' :: (serializeItems (JsonList.cons w tl2) ++ ']' :: rest))
      = some (v, ',' :: (serializeItems (JsonList.cons w tl2)
          ++ ']' :: rest)))
    (hI : parseItemsF f (serializeItems (JsonList.cons w tl2) ++ ']' :: rest)
      = some (JsonList.cons w tl2, rest)) :
    parseItemsF (f + 1)
        (serializeItems (JsonList.cons v (JsonList.cons w tl2))
          ++ ']' :: rest)
      = some (JsonList.cons v (JsonList.cons w tl2), rest) := by
  rw [serializeItems, List.append_assoc, List.cons_append, parseItemsF]
  simp only [parseItemsStep]
  rw [hJ]
  simp only []
  simp only [if_true]
  rw [hI]

theorem ps_fields_single (f : Nat) (k : List Char) (v : Json)
    (rest : List Char)
    (hJ : parseJsonF f (serialize v ++ rbrace :: rest)
      = some (v, rbrace :: rest)) :
    parseFieldsF (f + 1) (serializeFields (JsonObj.cons k v JsonObj.nil)
        ++ rbrace :: rest)
      = some (JsonObj.cons k v JsonObj.nil, rest) := by
  rw [serializeFields, List.cons_append, parseFieldsF]
  simp only [parseFieldsStep]
  simp only [if_true]
  have hstr : (escapeString k ++ '"' :: ':' :: serialize v)
      ++ rbrace :: rest
      = escapeString k ++ '"' :: (':' :: (serialize v ++ rbrace :: rest))
      := by
    simp [List.append_assoc]
  rw [hstr, parseStringBody_escape]
  simp only []
  simp only [if_true]
  rw [hJ]
  simp only []
  rw [if_neg (by decide : ¬rbrace = ',')]
  simp only [if_true]

theorem ps_fields_more (f : Nat) (k : List Char) (v : Json)
    (k2 : List Char) (v2 : Json) (tl2 : JsonObj) (rest : List Char)
    (hJ : parseJsonF f (serialize v ++
        ',' :: (serializeFields (JsonObj.cons k2 v2 tl2) ++ rbrace :: rest))
      = some (v, ',' :: (serializeFields (JsonObj.cons k2 v2 tl2)
          ++ rbrace :: rest)))
    (hF : parseFieldsF f (serializeFields (JsonObj.cons k2 v2 tl2)
        ++ rbrace :: rest)
      = some (JsonObj.cons k2 v2 tl2, rest)) :
    parseFieldsF (f + 1)
        (serializeFields (JsonObj.cons k v (JsonObj.cons k2 v2 tl2))
          ++ rbrace :: rest)
      = some (JsonObj.cons k v (JsonObj.cons k2 v2 tl2), rest) := by
  rw [serializeFields, parseFieldsF]
  simp only [parseFieldsStep, List.cons_append, List.append_assoc]
  simp only [if_true]
  rw [parseStringBody_escape]
  simp only []
  rw [hJ]
  simp only []
  simp only [if_true]
  rw [hF]
theorem parse_serialize_all (fuel : Nat) :
    (∀ v rest, jfuel v ≤ fuel → headSafe rest →
      parseJsonF fuel (serialize v ++ rest) = some (v, rest)) ∧
    (∀ es rest, es ≠ JsonList.nil → lfuel es ≤ fuel →
      parseItemsF fuel (serializeItems es ++ ']' :: rest)
        = some (es, rest)) ∧
    (∀ fs rest, fs ≠ JsonObj.nil → ofuel fs ≤ fuel →
      parseFieldsF fuel (serializeFields fs ++ rbrace :: rest)
        = some (fs, rest)) := by
  induction fuel with
  | zero =>
    refine ⟨?_, ?_, ?_⟩
    · intro v rest hf _
      have := jfuel_pos v
      omega
    · intro es rest _ hf
      have := lfuel_pos es
      omega
    · intro fs rest _ hf
      have := ofuel_pos fs
      omega
  | succ f ih =>
    obtain ⟨ih1, ih2, ih3⟩ := ih
    refine ⟨?_, ?_, ?_⟩
    · intro v rest hf hsafe
      cases v with
      | null => exact ps_null f rest
      | bool b => exact ps_bool f b rest
      | num n => exact ps_num f n rest hsafe
      | str s => exact ps_str f s rest
      | arr es =>
        cases es with
        | nil => exact ps_arr_nil f rest
        | cons v tl =>
          refine ps_arr_cons f v tl rest (ih2 _ rest (by simp) ?_)
          rw [jfuel] at hf
          omega
      | obj fs =>
        cases fs with
        | nil => exact ps_obj_nil f rest
        | cons k v tl =>
          refine ps_obj_cons f k v tl rest (ih3 _ rest (by simp) ?_)
          rw [jfuel] at hf
          omega
    · intro es rest hne hlf
      cases es with
      | nil => exact absurd rfl hne
      | cons v tl =>
        rw [lfuel] at hlf
        have hjv : jfuel v ≤ f := by omega
        have htl : lfuel tl ≤ f := by omega
        cases tl with
        | nil =>
          exact ps_items_single f v rest
            (ih1 v _ hjv (headSafe_cons _ _ (by decide)))
        | cons w tl2 =>
          exact ps_items_more f v w tl2 rest
            (ih1 v _ hjv (headSafe_cons _ _ (by decide)))
            (ih2 _ rest (by simp) htl)
    · intro fs rest hne hof
      cases fs with
      | nil => exact absurd rfl hne
      | cons k v tl =>
        rw [ofuel] at hof
        have hjv : jfuel v ≤ f := by omega
        have htl : ofuel tl ≤ f := by omega
        cases tl with
        | nil =>
          exact ps_fields_single f k v rest
            (ih1 v _ hjv (headSafe_cons _ _ (by decide)))
        | cons k2 v2 tl2 =>
          exact ps_fields_more f k v k2 v2 tl2 rest
            (ih1 v _ hjv (headSafe_cons _ _ (by decide)))
            (ih3 _ rest (by simp) htl)

theorem parseJson_serialize (v : Json) :
    parseJson (serialize v) = some (v, []) := by
  rw [parseJson]
  have h := (parse_serialize_all ((serialize v).length + 1)).1 v []
    (by have := jfuel_le_length v; omega) headSafe_nil
  rw [List.append_nil] at h
  exact h

theorem decodeBody_encode (v : Json) :
    decodeBody (utf8Encode (serialize v)) = DecodeEvent.msg v := by
  rw [decodeBody, utf8Decode_encode]
  simp only []
  rw [parseJson_serialize]
/-! ### Codec lemmas: framing -/

theorem matchBytes_append (lit r : List Nat) :
    matchBytes lit (lit ++ r) = BytesMatch.matched r := by
  induction lit with
  | nil => rfl
  | cons x xs ih =>
    rw [List.cons_append, matchBytes, if_pos rfl, ih]

theorem matchBytes_take (lit : List Nat) :
    ∀ j, j < lit.length → matchBytes lit (lit.take j) = BytesMatch.moreNeeded := by
  induction lit with
  | nil =>
    intro j hj
    simp at hj
  | cons x xs ih =>
    intro j hj
    cases j with
    | zero => rfl
    | succ j =>
      rw [List.take_succ_cons, matchBytes, if_pos rfl]
      exact ih j (by simpa using hj)

theorem byteHeadSafe_cons (b : Nat) (bs : List Nat)
    (h : ¬(48 ≤ b ∧ b ≤ 57)) : byteHeadSafe (b :: bs) := h

theorem takeDigitBytes_append (D : List Nat)
    (hD : ∀ b ∈ D, 48 ≤ b ∧ b ≤ 57) (r : List Nat) (hr : byteHeadSafe r) :
    takeDigitBytes (D ++ r) = (D.map (fun b => b - 48), r) := by
  induction D with
  | nil =>
    simp only [List.nil_append, List.map_nil]
    cases r with
    | nil => rfl
    | cons b bs =>
      have hr' : ¬(48 ≤ b ∧ b ≤ 57) := hr
      rw [takeDigitBytes]
      simp [hr']
  | cons d Dt ih =>
    have hd := hD d (List.mem_cons_self d Dt)
    rw [List.cons_append, takeDigitBytes]
    simp [hd, ih (fun b hb => hD b (List.mem_cons_of_mem _ hb))]

theorem takeDigitBytes_all (D : List Nat)
    (hD : ∀ b ∈ D, 48 ≤ b ∧ b ≤ 57) :
    takeDigitBytes D = (D.map (fun b => b - 48), []) := by
  have h := takeDigitBytes_append D hD [] trivial
  simpa using h

theorem utf8Encode_ascii (l : List Char) (h : ∀ c ∈ l, c.toNat < 128) :
    utf8Encode l = l.map Char.toNat := by
  induction l with
  | nil => rfl
  | cons c cs ih =>
    rw [utf8Encode, utf8EncodeChar]
    simp only [h c (List.mem_cons_self c cs), if_pos]
    rw [ih (fun x hx => h x (List.mem_cons_of_mem _ hx))]
    rfl

theorem isDigitCh_bounds (c : Char) (h : isDigitCh c = true) :
    48 ≤ c.toNat ∧ c.toNat ≤ 57 := by
  rw [isDigitCh, Bool.and_eq_true, decide_eq_true_eq, decide_eq_true_eq]
    at h
  exact h

theorem natBytes_eq (N : Nat) :
    utf8Encode (natChars N) = (natChars N).map Char.toNat :=
  utf8Encode_ascii _ (fun c hc => by
    have := isDigitCh_bounds c (natChars_digits N c hc)
    omega)

theorem natBytes_digits (N : Nat) :
    ∀ b ∈ utf8Encode (natChars N), 48 ≤ b ∧ b ≤ 57 := by
  intro b hb
  rw [natBytes_eq, List.mem_map] at hb
  obtain ⟨c, hc, rfl⟩ := hb
  exact isDigitCh_bounds c (natChars_digits N c hc)

theorem natBytes_ne_nil (N : Nat) : utf8Encode (natChars N) ≠ [] := by
  rw [natBytes_eq]
  simp [natChars_ne_nil N]

theorem natBytes_val (N : Nat) :
    digitsVal ((utf8Encode (natChars N)).map (fun b => b - 48)) = N := by
  rw [natBytes_eq, List.map_map]
  exact digitsVal_natChars N

theorem parseHeader_full (N : Nat) (x : List Nat) :
    parseHeader (utf8Encode headerChars ++
        (utf8Encode (natChars N) ++ (sepBytes ++ x)))
      = HeaderParse.done N x := by
  rw [parseHeader, matchBytes_append]
  simp only []
  have hsafe : byteHeadSafe (sepBytes ++ x) :=
    byteHeadSafe_cons 13 _ (by decide)
  rw [takeDigitBytes_append _ (natBytes_digits N) _ hsafe]
  obtain ⟨d, ds, hds⟩ := List.exists_cons_of_ne_nil
    (show (utf8Encode (natChars N)).map (fun b => b - 48) ≠ [] by
      simp [natBytes_ne_nil N])
  rw [hds]
  simp only []
  rw [show sepBytes ++ x = 13 :: (10 :: (13 :: (10 :: x))) from rfl]
  simp only [List.isEmpty_cons, Bool.false_eq_true, if_false]
  rw [show (13 :: (10 :: (13 :: (10 :: x))) : List Nat) = sepBytes ++ x
      from rfl,
    matchBytes_append, ← hds, natBytes_val]

theorem parseHeader_prefix (N : Nat) (B : List Nat) (j : Nat)
    (hj : j < (utf8Encode headerChars).length
      + ((utf8Encode (natChars N)).length + 4)) :
    parseHeader ((utf8Encode headerChars ++ (utf8Encode (natChars N)
        ++ (sepBytes ++ B))).take j)
      = HeaderParse.moreNeeded := by
  by_cases h1 : j < (utf8Encode headerChars).length
  · rw [List.take_append_of_le_length (by omega)]
    rw [parseHeader, matchBytes_take _ j h1]
  · push_neg at h1
    rw [List.take_append_eq_append_take, List.take_of_length_le h1,
      parseHeader, matchBytes_append]
    simp only []
    by_cases h2 : j - (utf8Encode headerChars).length
        ≤ (utf8Encode (natChars N)).length
    · rw [List.take_append_of_le_length h2]
      have hdig : ∀ b ∈ (utf8Encode (natChars N)).take
          (j - (utf8Encode headerChars).length), 48 ≤ b ∧ b ≤ 57 :=
        fun b hb => natBytes_digits N b (List.take_subset _ _ hb)
      rw [takeDigitBytes_all _ hdig]
    · push_neg at h2
      rw [List.take_append_eq_append_take,
        List.take_of_length_le (by omega)]
      set k := j - (utf8Encode headerChars).length
        - (utf8Encode (natChars N)).length with hk
      have hk4 : k < 4 := by
        rw [hk]
        omega
      have hk1 : 1 ≤ k := by
        rw [hk]
        omega
      rw [List.take_append_of_le_length
        (show k ≤ sepBytes.length by rw [sepBytes]; simp; omega)]
      obtain ⟨d, ds, hds⟩ := List.exists_cons_of_ne_nil
        (show (utf8Encode (natChars N)).map (fun b => b - 48) ≠ [] by
          simp [natBytes_ne_nil N])
      interval_cases k
      · rw [show List.take 1 sepBytes = [13] from rfl,
          takeDigitBytes_append _ (natBytes_digits N) _
            (byteHeadSafe_cons 13 [] (by decide)), hds]
        simp only [List.isEmpty_cons, Bool.false_eq_true, if_false]
        rfl
      · rw [show List.take 2 sepBytes = [13, 10] from rfl,
          takeDigitBytes_append _ (natBytes_digits N) _
            (byteHeadSafe_cons 13 [10] (by decide)), hds]
        simp only [List.isEmpty_cons, Bool.false_eq_true, if_false]
        rfl
      · rw [show List.take 3 sepBytes = [13, 10, 13] from rfl,
          takeDigitBytes_append _ (natBytes_digits N) _
            (byteHeadSafe_cons 13 [10, 13] (by decide)), hds]
        simp only [List.isEmpty_cons, Bool.false_eq_true, if_false]
        rfl

theorem headerBytes_length : (utf8Encode headerChars).length = 16 := rfl

theorem sepBytes_length : sepBytes.length = 4 := rfl

theorem encodeFrame_eq (p : Json) :
    encodeFrame p = utf8Encode headerChars ++ (utf8Encode (natChars
        (utf8Encode (serialize p)).length)
      ++ (sepBytes ++ utf8Encode (serialize p))) := by
  rw [encodeFrame]
  simp [List.append_assoc]

theorem parseHeader_full_assoc (N : Nat) (x : List Nat) :
    parseHeader ((utf8Encode headerChars ++ utf8Encode (natChars N)
        ++ sepBytes) ++ x)
      = HeaderParse.done N x := by
  rw [show (utf8Encode headerChars ++ utf8Encode (natChars N)
      ++ sepBytes) ++ x
      = utf8Encode headerChars ++ (utf8Encode (natChars N)
        ++ (sepBytes ++ x)) by simp [List.append_assoc]]
  exact parseHeader_full N x

theorem hdr3_length (N : Nat) :
    (utf8Encode headerChars ++ utf8Encode (natChars N)
      ++ sepBytes).length
      = 16 + (utf8Encode (natChars N)).length + 4 := by
  simp [List.length_append, headerBytes_length, sepBytes_length]
  omega

theorem encodeFrame_length (p : Json) :
    (encodeFrame p).length = 16 + (utf8Encode (natChars
        (utf8Encode (serialize p)).length)).length
      + 4 + (utf8Encode (serialize p)).length := by
  rw [encodeFrame_eq]
  simp [List.length_append, headerBytes_length, sepBytes_length]
  omega

theorem extractF_take_prefix (p : Json) (j : Nat)
    (hj : j < (encodeFrame p).length) (fl : Nat) :
    extractF fl ((encodeFrame p).take j)
      = ([], (encodeFrame p).take j) := by
  have hjE : j < 16 + (utf8Encode (natChars
      (utf8Encode (serialize p)).length)).length
      + 4 + (utf8Encode (serialize p)).length := by
    rw [encodeFrame_length] at hj
    omega
  cases fl with
  | zero => rfl
  | succ fl =>
    rw [extractF]
    by_cases hcase : j < (utf8Encode headerChars).length
        + ((utf8Encode (natChars
          (utf8Encode (serialize p)).length)).length + 4)
    · rw [encodeFrame_eq, parseHeader_prefix _ _ _ hcase]
    · push_neg at hcase
      rw [headerBytes_length] at hcase
      have hassoc : encodeFrame p
          = (utf8Encode headerChars ++ utf8Encode (natChars
            (utf8Encode (serialize p)).length) ++ sepBytes)
            ++ utf8Encode (serialize p) := by
        rw [encodeFrame_eq]
        simp [List.append_assoc]
      rw [hassoc, List.take_append_eq_append_take,
        List.take_of_length_le (by rw [hdr3_length]; omega),
        parseHeader_full_assoc]
      simp only []
      rw [if_neg ?hlenneg]
      case hlenneg =>
        rw [List.length_take, hdr3_length]
        omega

theorem parseHeader_nil : parseHeader [] = HeaderParse.moreNeeded := rfl

theorem extractF_nil (fl : Nat) : extractF fl [] = ([], []) := by
  cases fl with
  | zero => rfl
  | succ fl => rw [extractF, parseHeader_nil]

theorem encodeFrame_assoc (p : Json) :
    encodeFrame p = (utf8Encode headerChars ++ utf8Encode (natChars
        (utf8Encode (serialize p)).length) ++ sepBytes)
      ++ utf8Encode (serialize p) := by
  rw [encodeFrame_eq]
  simp [List.append_assoc]

theorem extract_encodeFrame (p : Json) :
    extract (encodeFrame p) = ([DecodeEvent.msg p], []) := by
  rw [extract]
  have hlen : 1 ≤ (encodeFrame p).length := by
    rw [encodeFrame_length]
    omega
  obtain ⟨fl, hfl⟩ : ∃ fl, (encodeFrame p).length = fl + 1 :=
    ⟨(encodeFrame p).length - 1, by omega⟩
  rw [hfl, extractF, encodeFrame_assoc, parseHeader_full_assoc]
  simp only []
  rw [if_pos le_rfl, List.take_length, List.drop_length, decodeBody_encode,
    extractF_nil]

theorem feedChunks_join_nil :
    ∀ cs : List (List Nat), cs.join = [] →
      feedChunks ⟨[]⟩ cs = (⟨[]⟩, []) := by
  intro cs
  induction cs with
  | nil =>
    intro _
    rfl
  | cons c cs ih =>
    intro h
    obtain ⟨hc, hcs⟩ := List.append_eq_nil.mp
      (show c ++ cs.join = [] from h)
    subst hc
    rw [feedChunks, show feed ⟨[]⟩ [] = (⟨[]⟩, []) from rfl]
    simp only []
    rw [ih hcs]
    rfl

theorem feedChunks_encode_aux (p : Json) :
    ∀ (cs : List (List Nat)) (j : Nat), j < (encodeFrame p).length →
      cs.join = (encodeFrame p).drop j →
      feedChunks ⟨(encodeFrame p).take j⟩ cs
        = (⟨[]⟩, [DecodeEvent.msg p]) := by
  intro cs
  induction cs with
  | nil =>
    intro j hj hdrop
    exfalso
    have hnil : (encodeFrame p).drop j = [] := by simpa using hdrop.symm
    have := List.drop_eq_nil_iff.mp hnil
    omega
  | cons c cs ih =>
    intro j hj hdrop
    replace hdrop : c ++ cs.join = (encodeFrame p).drop j := hdrop
    have hlenrel : c.length + cs.join.length
        = (encodeFrame p).length - j := by
      have hlen := congrArg List.length hdrop
      rw [List.length_append, List.length_drop] at hlen
      omega
    have hj' : j + c.length ≤ (encodeFrame p).length := by omega
    have htake : (encodeFrame p).take j ++ c
        = (encodeFrame p).take (j + c.length) := by
      rw [List.take_add]
      congr 1
      rw [← hdrop, List.take_left]
    have hdrop' : cs.join = (encodeFrame p).drop (j + c.length) := by
      rw [← List.drop_drop, ← hdrop, List.drop_left]
    rw [feedChunks,
      show feed ⟨(encodeFrame p).take j⟩ c
        = (⟨(extract ((encodeFrame p).take j ++ c)).2⟩,
            (extract ((encodeFrame p).take j ++ c)).1) from rfl, htake]
    by_cases hend : j + c.length < (encodeFrame p).length
    · rw [extract, extractF_take_prefix p _ hend]
      simp only []
      rw [ih (j + c.length) hend hdrop']
      rfl
    · have heq : j + c.length = (encodeFrame p).length := by omega
      rw [heq, List.take_length, extract_encodeFrame]
      simp only []
      have hjoin : cs.join = [] := by
        rw [hdrop', heq, List.drop_length]
      rw [feedChunks_join_nil cs hjoin]
      rfl

/-- C7: framing round trip — for every JSON payload and every way of
splitting the encoded frame into input chunks at arbitrary byte offsets
(including inside a multi-byte UTF-8 character), feeding the chunks to a
fresh decoder yields exactly one decoded message equal to the original
payload, with nothing left buffered. -/
theorem framing_chunked_roundtrip (payload : Json)
    (chunks : List (List Nat))
    (hc : chunks.join = encodeFrame payload) :
    feedChunks ⟨[]⟩ chunks = (⟨[]⟩, [DecodeEvent.msg payload]) := by
  have h0 : (0 : Nat) < (encodeFrame payload).length := by
    rw [encodeFrame_length]
    omega
  have h := feedChunks_encode_aux payload chunks 0 h0 (by simpa using hc)
  simpa using h

/-- Closed instance of C7: the sample frame split after byte 31, in the
middle of the two-byte UTF-8 character of the body, decodes to exactly
the sample payload. -/
theorem framing_chunked_roundtrip_witness :
    feedChunks ⟨[]⟩ [(encodeFrame samplePayload).take 31,
        (encodeFrame samplePayload).drop 31]
      = (⟨[]⟩, [DecodeEvent.msg samplePayload]) :=
  framing_chunked_roundtrip samplePayload
    [(encodeFrame samplePayload).take 31,
      (encodeFrame samplePayload).drop 31]
    (by simp [List.join])

end Qalam
